import Mathlib

/-!
Verification of the entity-serializer core (src/entity-serializer.ts).

This file gives a shallow embedding of the serializer: the metadata model
(types, property descriptors), JavaScript values, the serializer's registries
(converters, injectors, aliases, value resolvers), and the
serialize/deserialize algorithms, translated clause by clause from the
TypeScript source.  Recursion through nested entities is bounded by an
explicit fuel parameter modelling the JavaScript call stack; running out of
fuel yields the distinguished error `stackMsg`, which a real run never
produces for a terminating input.

Modelling conventions:
 * JS `Map` keyed by `Type | string` becomes an association list keyed by
   `TypeKey`; a type object is identified by its full name (the metadata
   system has one type object per full name), but a type-object key and a
   plain string key remain distinct keys, as in the source.
 * A JS object used as a string lookup (`ObjectLookup<string>`, serialized
   output) becomes an insertion-ordered association list with
   update-in-place assignment, matching JS property-write semantics.
 * The `IgnoreProperty` sentinel is compared by object identity (`!==`) in
   the source; identity is modelled by giving the sentinel its own
   constructor `PSResult.ignoreProp`, distinct from any structurally equal
   plain pair `PSResult.pair "ignore" (.vstr "ignore")`.
 * Exceptions (the duplicate-key `Error`, JS `TypeError`s) are modelled with
   `Except String`.
-/

inductive TypeKey where
  | obj (fullName : String)
  | str (s : String)
deriving DecidableEq

mutual
inductive PropType where
  | strTy
  | numTy
  | boolTy
  | otherScalar (name : String)
  | entityTy (child : Ty)

inductive Ty where
  | mk (fullName : String) (baseType : Option Ty) (properties : List PropDesc)
       (identifier : Option String)

inductive PropDesc where
  | mk (name : String) (propertyType : PropType) (isList : Bool)
       (isCalculated : Bool) (isConstant : Bool) (format : Option Nat)
       (containingTypeName : String)
end

def Ty.fullName : Ty → String
  | .mk n _ _ _ => n

def Ty.baseType : Ty → Option Ty
  | .mk _ b _ _ => b

def Ty.properties : Ty → List PropDesc
  | .mk _ _ ps _ => ps

def Ty.identifier : Ty → Option String
  | .mk _ _ _ i => i

def PropDesc.name : PropDesc → String
  | .mk n _ _ _ _ _ _ => n

def PropDesc.propertyType : PropDesc → PropType
  | .mk _ t _ _ _ _ _ => t

def PropDesc.isList : PropDesc → Bool
  | .mk _ _ l _ _ _ _ => l

def PropDesc.isCalculated : PropDesc → Bool
  | .mk _ _ _ c _ _ _ => c

def PropDesc.isConstant : PropDesc → Bool
  | .mk _ _ _ _ c _ _ => c

def PropDesc.format : PropDesc → Option Nat
  | .mk _ _ _ _ _ f _ => f

def PropDesc.containingTypeName : PropDesc → String
  | .mk _ _ _ _ _ _ ct => ct

/-- `isEntityType(property.propertyType)` from src/type.ts: true exactly for
entity types. -/
def PropType.isEntity : PropType → Bool
  | .entityTy _ => true
  | _ => false

/-- Whether the property type is the JS `String` constructor, used for the
`data.constructor !== property.propertyType` comparison on string data. -/
def PropType.isStringTy : PropType → Bool
  | .strTy => true
  | _ => false

/-- JavaScript runtime values, restricted to what the serializer touches.
An entity instance carries its type descriptor (`entity.meta.type`) and its
current property values (`prop.value(entity)` reads them by name). -/
inductive Value where
  | vnull
  | vundefined
  | vstr (s : String)
  | vnum (n : Int)
  | vbool (b : Bool)
  | vlist (elems : List Value)
  | vobj (fields : List (String × Value))
  | ventity (ty : Ty) (fields : List (String × Value))

/-- JS truthiness for the modelled values. -/
def truthy : Value → Bool
  | .vnull => false
  | .vundefined => false
  | .vstr s => s ≠ ""
  | .vnum n => n ≠ 0
  | .vbool b => b
  | .vlist _ => true
  | .vobj _ => true
  | .ventity _ _ => true

/-- `Array.isArray`. -/
def Value.isArray : Value → Bool
  | .vlist _ => true
  | _ => false

/-- `typeof v === "string"`. -/
def Value.isString : Value → Bool
  | .vstr _ => true
  | _ => false

/-- `v instanceof Object` (arrays, plain objects and entities all qualify). -/
def isObjectJS : Value → Bool
  | .vlist _ => true
  | .vobj _ => true
  | .ventity _ _ => true
  | _ => false

/-- Walks a type's inheritance chain checking for a type of the given full
name (type-object identity is modelled by full name). -/
def tyChainContains : Ty → String → Bool
  | .mk n b _ _, target =>
    n = target ||
      (match b with
       | some bt => tyChainContains bt target
       | none => false)

/-- `v instanceof ChildEntity`: `v` is an entity whose type inherits from
(or is) the target type. -/
def instanceOfTy (v : Value) (target : Ty) : Bool :=
  match v with
  | .ventity ty _ => tyChainContains ty target.fullName
  | _ => false

/-- Reading a named field from an entity's (or object's) field list; JS
returns `undefined` for an absent property. -/
def fieldVal : List (String × Value) → String → Value
  | [], _ => .vundefined
  | (k, v) :: rest, n => if k = n then v else fieldVal rest n

/-- `state[name]` as a JS expression: throws a `TypeError` on `null` or
`undefined`, yields `undefined` on other primitives. -/
def jsIndex : Value → String → Except String Value
  | .vnull, n => .error ("TypeError: cannot read properties of null, reading " ++ n)
  | .vundefined, n => .error ("TypeError: cannot read properties of undefined, reading " ++ n)
  | .vobj fs, n => .ok (fieldVal fs n)
  | .ventity _ fs, n => .ok (fieldVal fs n)
  | _, _ => .ok .vundefined

/-- A `PropertySerializationResult`: either a key/value pair or the
distinguished `IgnoreProperty` sentinel object (identity captured by the
constructor; a fresh `{key: "ignore", value: "ignore"}` object is the
structurally equal but distinct `pair "ignore" (.vstr "ignore")`). -/
inductive PSResult where
  | ignoreProp
  | pair (key : String) (value : Value)

/-- `r === IgnoreProperty` (reference comparison against the sentinel). -/
def PSResult.isIgnore : PSResult → Bool
  | .ignoreProp => true
  | .pair _ _ => false

/-- Data flowing into `deserialize`: an arbitrary value, or the
`IgnoreProperty` sentinel object itself (a converter may return it). -/
inductive DData where
  | ignoreSentinel
  | val (v : Value)

/-- Association-list lookup for the JS `Map` keyed by `Type | string`. -/
def mapGet {α : Type} : List (TypeKey × α) → TypeKey → Option α
  | [], _ => none
  | (k, a) :: rest, key => if k = key then some a else mapGet rest key

/-- `Map.set`: overwrite in place if the key exists, else append. -/
def mapSet {α : Type} : List (TypeKey × α) → TypeKey → α → List (TypeKey × α)
  | [], key, a => [(key, a)]
  | (k, b) :: rest, key, a =>
    if k = key then (k, a) :: rest else (k, b) :: mapSet rest key a

/-- Lookup in an `ObjectLookup<string>` (a plain JS object). -/
def objGet : List (String × String) → String → Option String
  | [], _ => none
  | (k, v) :: rest, key => if k = key then some v else objGet rest key

/-- JS object property write: update in place if present, else append. -/
def objSet : List (String × String) → String → String → List (String × String)
  | [], key, v => [(key, v)]
  | (k, w) :: rest, key, v =>
    if k = key then (k, v) :: rest else (k, w) :: objSet rest key v

/-- `Object.assign(a, b)`: copy `b`'s entries into `a`, overwriting. -/
def objAssign (a b : List (String × String)) : List (String × String) :=
  b.foldl (fun acc kv => objSet acc kv.1 kv.2) a

/-- Modelled from the spec: `flatMap` is imported from src/helpers.ts, which
is not part of the provided source; the spec treats it as the ordinary
concatenating map. -/
def flatMapL {α β : Type} (f : α → List β) : List α → List β
  | [] => []
  | a :: rest => f a ++ flatMapL f rest

structure SerializationSettings where
  useAliases : Bool
  force : Bool

/-- `DefaultSerializationSettings` (both flags false; absent JS flags are
falsy). -/
def DefaultSerializationSettings : SerializationSettings :=
  { useAliases := false, force := false }

/-- A registered property converter.  Custom converters are external
plugins; their three methods are modelled as pure functions.  The built-in
default behaviour of the `PropertyConverter` base class is the separate
`defaultConverterSerialize` below, because it recurses into entity
serialization. -/
structure PropertyConverter where
  shouldConvert : Value → PropDesc → Bool
  serializeValue : Value → Value → PropDesc → SerializationSettings → PSResult
  deserializeValue : Value → DData → PropDesc → DData

/-- A registered property injector. -/
structure PropertyInjector where
  inject : Value → List PSResult

/-- An `AsyncValueResolver`.  It returns a JS value (possibly a pending
promise, which is just some truthy object here); a resolver that returns
nothing yields `undefined`. -/
def AsyncValueResolver : Type :=
  Value → PropDesc → Value → Value

/-- External lookup of format converters (`property.format.convertFromString`
lives in the metadata system, outside this core); a property references its
format by index. -/
def FormatEnv : Type :=
  Nat → String → Value

/-- Modelled from the spec: the per-type `get(identifier) -> entity|none`
lookup of §6 belongs to the external entity/metadata system
(`type.meta.get`); it is passed in as part of the initialization context,
keyed by the type's full name, returning `undefined` on a miss. -/
structure InitializationContext where
  get : String → Value → Value

/-- The mutable registries of one `EntitySerializer` instance. -/
structure EntitySerializer where
  propertyConverters : List PropertyConverter
  propertyInjectors : List (TypeKey × List PropertyInjector)
  propertyAliases : List (TypeKey × List (String × String))
  valueResolvers : List AsyncValueResolver

/-- A freshly constructed `EntitySerializer` (all registries empty). -/
def emptySerializer : EntitySerializer :=
  { propertyConverters := [], propertyInjectors := [],
    propertyAliases := [], valueResolvers := [] }

/-- `registerPropertyConverter`: `unshift`, so the most recently registered
converter is first. -/
def registerPropertyConverter (st : EntitySerializer) (c : PropertyConverter) :
    EntitySerializer :=
  { st with propertyConverters := c :: st.propertyConverters }

/-- `registerPropertyInjector`: push onto the list stored under the exact
key used at registration (a type object or a full-name string). -/
def registerPropertyInjector (st : EntitySerializer) (key : TypeKey)
    (inj : PropertyInjector) : EntitySerializer :=
  let injectors := (mapGet st.propertyInjectors key).getD []
  { st with propertyInjectors := mapSet st.propertyInjectors key (injectors ++ [inj]) }

/-- `registerPropertyAlias`: store both directions in the per-key lookup. -/
def registerPropertyAlias (st : EntitySerializer) (key : TypeKey)
    (aliasName : String) (propertyName : String) : EntitySerializer :=
  let aliases := (mapGet st.propertyAliases key).getD []
  let aliases := objSet aliases aliasName propertyName
  let aliases := objSet aliases propertyName aliasName
  { st with propertyAliases := mapSet st.propertyAliases key aliases }

/-- `registerValueResolver`: push (first registered runs first). -/
def registerValueResolver (st : EntitySerializer) (r : AsyncValueResolver) :
    EntitySerializer :=
  { st with valueResolvers := st.valueResolvers ++ [r] }

/-- `getInjectorsOrDefault`: registrations under the type object
concatenated with registrations under its full-name string. -/
def getInjectorsOrDefault (st : EntitySerializer) (ty : Ty) :
    List PropertyInjector :=
  (mapGet st.propertyInjectors (.obj ty.fullName)).getD [] ++
    (mapGet st.propertyInjectors (.str ty.fullName)).getD []

/-- `getPropertyInjectors`: do/while walk over the inheritance chain,
most-derived level first. -/
def getPropertyInjectors (st : EntitySerializer) : Ty → List PropertyInjector
  | .mk n b ps i =>
    getInjectorsOrDefault st (.mk n b ps i) ++
      (match b with
       | some bt => getPropertyInjectors st bt
       | none => [])

/-- `getPropertyAliases`:
`Object.assign({}, aliases.get(type), aliases.get(type.fullName))`.
The type object is identified by its full name. -/
def getPropertyAliases (st : EntitySerializer) (tyFullName : String) :
    List (String × String) :=
  objAssign (objAssign [] ((mapGet st.propertyAliases (.obj tyFullName)).getD []))
    ((mapGet st.propertyAliases (.str tyFullName)).getD [])

/-- The value-resolver loop of `resolveValue`: `if (result) return result;`
— the first truthy result is returned, otherwise the scan continues;
falling off the end returns `undefined`. -/
def rvScan (e : Value) (p : PropDesc) (v : Value) :
    List AsyncValueResolver → Value
  | [] => .vundefined
  | r :: rest =>
    let res := r e p v
    if truthy res then res else rvScan e p v rest

/-- `resolveValue(context, property, value)`. -/
def resolveValue (st : EntitySerializer) (e : Value) (p : PropDesc)
    (v : Value) : Value :=
  rvScan e p v st.valueResolvers

/-- The non-calculated, non-constant properties serialized by default
(`type.properties.filter(p => !p.isCalculated && !p.isConstant)`). -/
def serializableProps (ty : Ty) : List PropDesc :=
  ty.properties.filter (fun p => !p.isCalculated && !p.isConstant)

/-- Error message of the fuel-exhaustion marker (models JS stack overflow;
never produced on a real terminating run). -/
def stackMsg : String :=
  "RangeError: maximum call stack size exceeded"

/-- The duplicate-key error thrown by `serialize` (quotes of the original
message elided). -/
def dupKeyMsg (k : String) : String :=
  "Property " ++ k ++
    " was encountered twice during serialization. Make sure injected properties do not collide with model properties."

/-- One step of the output-object fold in `serialize`: skip the sentinel
(identity comparison), throw on `hasOwnProperty`, else insert. -/
def addPair (acc : Except String (List (String × Value))) (p : PSResult) :
    Except String (List (String × Value)) :=
  match acc with
  | .error e => .error e
  | .ok fs =>
    match p with
    | .ignoreProp => .ok fs
    | .pair k v =>
      if fs.any (fun q => q.1 = k) then .error (dupKeyMsg k)
      else .ok (fs ++ [(k, v)])

/-- The `forEach` fold of `serialize` assembling the output object. -/
def buildObject (pairs : List PSResult) : Except String Value :=
  (pairs.foldl addPair (.ok [])).map .vobj

/-- The default `PropertyConverter.serialize` (src lines 45-58).  `entSer`
is `v => v.serialize(settings)`: recursive entity serialization, supplied by
the caller to tie the fuel-indexed knot; on a non-entity it is the JS
`TypeError` for a missing `.serialize` method.  `value.slice()` succeeds on
arrays and strings only. -/
def defaultConverterSerialize (entSer : Value → Except String Value)
    (p : PropDesc) (v : Value) : Except String PSResult :=
  if truthy v then
    if p.propertyType.isEntity then
      if p.isList && v.isArray then
        match v with
        | .vlist es => do
          let os ← es.mapM entSer
          .ok (.pair p.name (.vlist os))
        | _ => .error "unreachable: isArray"
      else do
        let o ← entSer v
        .ok (.pair p.name o)
    else if p.isList then
      match v with
      | .vlist es => .ok (.pair p.name (.vlist es))
      | .vstr s => .ok (.pair p.name (.vstr s))
      | _ => .error "TypeError: value.slice is not a function"
    else .ok (.pair p.name v)
  else .ok (.pair p.name v)

/-- The converter scan inside `serializePropertyValue` (src lines 145-154),
already specialised to the filtered chain: accept the first result unless
`force` is set and the result is the `IgnoreProperty` sentinel; fall back to
the default converter when the list is exhausted (the `if (converters)`
guard in the source is always true, an array being truthy even when
empty). -/
def convScan (entSer : Value → Except String Value)
    (settings : SerializationSettings) (entity : Value) (p : PropDesc)
    (v : Value) : List PropertyConverter → Except String PSResult
  | [] => defaultConverterSerialize entSer p v
  | c :: rest =>
    let res := c.serializeValue entity v p settings
    if !settings.force || !res.isIgnore then .ok res
    else convScan entSer settings entity p v rest

/-- The alias substitution `aliases[property.name] || result.key` (an empty
or missing alias keeps the original key). -/
def aliasedKey (st : EntitySerializer) (p : PropDesc) (k : String) : String :=
  match objGet (getPropertyAliases st p.containingTypeName) p.name with
  | some a => if a = "" then k else a
  | none => k

/-- `serializePropertyValue` (src lines 143-160). -/
def serializePropertyValue (entSer : Value → Except String Value)
    (st : EntitySerializer) (settings : SerializationSettings)
    (entity : Value) (p : PropDesc) (v : Value) : Except String PSResult := do
  let converters := st.propertyConverters.filter (fun c => c.shouldConvert entity p)
  let result ← convScan entSer settings entity p v converters
  match result with
  | .pair k w =>
    if settings.useAliases then .ok (.pair (aliasedKey st p k) w)
    else .ok (.pair k w)
  | r => .ok r

/-- `properties.map(prop => serializePropertyValue(entity, prop,
prop.value(entity), settings))`, with JS left-to-right evaluation and
exception propagation. -/
def mapSPV (entSer : Value → Except String Value) (st : EntitySerializer)
    (settings : SerializationSettings) (entity : Value)
    (fields : List (String × Value)) : List PropDesc → Except String (List PSResult)
  | [] => .ok []
  | p :: ps => do
    let r ← serializePropertyValue entSer st settings entity p (fieldVal fields p.name)
    let rest ← mapSPV entSer st settings entity fields ps
    .ok (r :: rest)

/-- The full pair sequence `serialize` folds: injected pairs first, then
model-property pairs in declared order (src lines 169-172). -/
def serializedPairs (entSer : Value → Except String Value)
    (st : EntitySerializer) (settings : SerializationSettings) (ty : Ty)
    (fields : List (String × Value)) : Except String (List PSResult) := do
  let entity := Value.ventity ty fields
  let injected := flatMapL (fun i => i.inject entity) (getPropertyInjectors st ty)
  let propPairs ← mapSPV entSer st settings entity fields (serializableProps ty)
  .ok (injected ++ propPairs)

/-- `EntitySerializer.serialize` (src lines 166-182), fuel-indexed; a nested
entity value's `.serialize(settings)` method re-enters this function per the
§6 instance contract. -/
def serializeEntity : Nat → EntitySerializer → SerializationSettings → Ty →
    List (String × Value) → Except String Value
  | 0, _, _, _, _ => .error stackMsg
  | f + 1, st, settings, ty, fields =>
    serializedPairs
      (fun v =>
        match v with
        | .ventity ty2 fs2 => serializeEntity f st settings ty2 fs2
        | _ => .error "TypeError: value.serialize is not a function")
      st settings ty fields >>= buildObject

/-- `ent.serialize(settings)` on a value: the §6 entity-instance contract
(an entity's own serialize method delegates back to the serializer). -/
def entSerialize (f : Nat) (st : EntitySerializer)
    (settings : SerializationSettings) : Value → Except String Value :=
  fun v =>
    match v with
    | .ventity ty2 fs2 => serializeEntity f st settings ty2 fs2
    | _ => .error "TypeError: value.serialize is not a function"

theorem serializeEntity_succ (f : Nat) (st : EntitySerializer)
    (settings : SerializationSettings) (ty : Ty) (fields : List (String × Value)) :
    serializeEntity (f + 1) st settings ty fields =
      serializedPairs (entSerialize f st settings) st settings ty fields >>= buildObject :=
  rfl

/-- Modelled from the spec: the entity constructor `(identifier, rawState,
context)` of §6 lives in src/entity.ts, outside the provided source.  Per
§1/§4.5/§8 it reconstructs the instance's property values from the raw
state: each serialized (non-calculated, non-constant) property is read off
the state object and deserialized; `deser` is the per-property
deserialization (the converter checks inside it see the partially
constructed instance, modelled as an entity with no fields yet). -/
def constructFields (deser : Value → PropDesc → Except String Value) :
    List PropDesc → Value → Except String (List (String × Value))
  | [], _ => .ok []
  | p :: ps, state => do
    let dv ← jsIndex state p.name
    let v ← deser dv p
    let rest ← constructFields deser ps state
    .ok ((p.name, v) :: rest)

/-- The local `resolveEntity` of `deserialize` (src lines 195-203): read the
identifier off the state if the type declares one; a truthy identifier is
looked up in the external instance cache (`type.meta.get`, modelled by the
initialization context); a falsy identifier or a cache miss constructs a new
instance from the state. -/
def resolveEntity (deser : Value → PropDesc → Except String Value) (ty : Ty)
    (state : Value) (ctx : InitializationContext) : Except String Value := do
  let id ← match ty.identifier with
           | some idn => jsIndex state idn
           | none => .ok .vnull
  let existing := if truthy id then ctx.get ty.fullName id else .vundefined
  if truthy existing then .ok existing
  else do
    let fs ← constructFields deser (serializableProps ty) state
    .ok (.ventity ty fs)

/-- The shape-directed part of `deserialize` (src lines 193-231), applied to
the converter-processed value.  `dcb inst v p` is the recursive
`this.deserialize(inst, v, p, context)` call at one level less fuel. -/
def shapeDeserialize (dcb : Value → Value → PropDesc → Except String Value)
    (fenv : FormatEnv) (inst : Value) (d : Value) (p : PropDesc)
    (ctx : InitializationContext) (constructEnt : Bool) :
    Except String Value :=
  match p.propertyType with
  | .entityTy child =>
    if constructEnt = false then .ok d
    else if p.isList && d.isArray then
      match d with
      | .vlist es =>
        (es.mapM (fun s =>
          if instanceOfTy s child then .ok s
          else resolveEntity (fun v q => dcb (.ventity child []) v q) child s ctx)).map .vlist
      | _ => .error "unreachable: isArray"
    else if instanceOfTy d child then .ok d
    else if isObjectJS d then
      resolveEntity (fun v q => dcb (.ventity child []) v q) child d ctx
    else .ok .vundefined
  | _ =>
    if p.isList && d.isArray then
      match d with
      | .vlist es => (es.mapM (fun i => dcb inst i p)).map .vlist
      | _ => .error "unreachable: isArray"
    else
      match p.format, d with
      | some fid, .vstr s =>
        if s ≠ "" && p.propertyType.isStringTy = false then .ok (fenv fid s)
        else .ok d
      | _, _ => .ok d

/-- The converter-dispatch prefix of `deserialize` (src lines 186-188): only
the first converter (most recently registered first) whose `shouldConvert`
holds is applied; with no match the data passes through unmodified. -/
def applyDeserializeConverter (st : EntitySerializer) (inst : Value)
    (data : DData) (p : PropDesc) : DData :=
  match st.propertyConverters.find? (fun c => c.shouldConvert inst p) with
  | some c => c.deserializeValue inst data p
  | none => data

/-- `EntitySerializer.deserialize` (src lines 184-232), fuel-indexed.
Returning `ok .vundefined` is JS returning `undefined` ("no value produced"). -/
def deserialize : Nat → EntitySerializer → Value → DData → PropDesc →
    InitializationContext → FormatEnv → Bool → Except String Value
  | 0, _, _, _, _, _, _, _ => .error stackMsg
  | f + 1, st, inst, data0, p, ctx, fenv, constructEnt =>
    match applyDeserializeConverter st inst data0 p with
    | .ignoreSentinel => .ok .vundefined
    | .val d =>
      shapeDeserialize (fun i v q => deserialize f st i (.val v) q ctx fenv true)
        fenv inst d p ctx constructEnt

theorem deserialize_succ (f : Nat) (st : EntitySerializer) (inst : Value)
    (data0 : DData) (p : PropDesc) (ctx : InitializationContext)
    (fenv : FormatEnv) (constructEnt : Bool) :
    deserialize (f + 1) st inst data0 p ctx fenv constructEnt =
      match applyDeserializeConverter st inst data0 p with
      | .ignoreSentinel => .ok .vundefined
      | .val d =>
        shapeDeserialize (fun i v q => deserialize f st i (.val v) q ctx fenv true)
          fenv inst d p ctx constructEnt :=
  rfl

mutual
/-- The value stored for one property by the default converter on a
registration-free serializer (specification of `serializeEntity`'s output
used by the round-trip development): nested entities become plain objects,
entity lists become lists of plain objects, everything else is kept
(list slicing is identity on pure values), falsy values are kept as is. -/
def canonPV : PropDesc → Value → Value
  | p, v =>
    if truthy v then
      if p.propertyType.isEntity then
        if p.isList then
          match v with
          | .vlist es => .vlist (canonEnts es)
          | .ventity ty2 fs2 => .vobj (canonFields (serializableProps ty2) fs2)
          | w => w
        else
          match v with
          | .ventity ty2 fs2 => .vobj (canonFields (serializableProps ty2) fs2)
          | w => w
      else v
    else v

/-- Canonical serialization of each entity in a list. -/
def canonEnts : List Value → List Value
  | [] => []
  | e :: es =>
    (match e with
     | .ventity ty2 fs2 => Value.vobj (canonFields (serializableProps ty2) fs2)
     | w => w) :: canonEnts es

/-- Canonical serialization of an entity's field list, aligned with its
serializable property descriptors. -/
def canonFields : List PropDesc → List (String × Value) → List (String × Value)
  | p :: ps, (k, v) :: fs => (k, canonPV p v) :: canonFields ps fs
  | _, _ => []
end

mutual
/-- Fuel sufficient for `deserialize` to fully reconstruct a value of this
shape (one unit per entity or list level, summed over children). -/
def gneed : Value → Nat
  | .ventity _ fs => 1 + gneedFields fs
  | .vlist es => 1 + gneedList es
  | _ => 1

def gneedList : List Value → Nat
  | [] => 1
  | e :: es => gneed e + gneedList es

def gneedFields : List (String × Value) → Nat
  | [] => 1
  | (_, v) :: fs => gneed v + gneedFields fs
end

/-- Format-safety of a scalar datum: the string-to-value format conversion
guard of `deserialize` does not fire on it (it is not a non-empty string
sitting in a non-string-typed formatted property). -/
def formatSafe (p : PropDesc) : Value → Bool
  | .vstr s => p.format.isNone || s = "" || p.propertyType.isStringTy
  | _ => true

mutual
/-- Scalar data that deserialization passes through unchanged, recursively
through list nesting. -/
def scalarOk (p : PropDesc) : Value → Bool
  | .vlist es => scalarOkList p es
  | w => formatSafe p w

def scalarOkList (p : PropDesc) : List Value → Bool
  | [] => true
  | e :: es => scalarOk p e && scalarOkList p es
end

mutual
/-- A canonical, well-typed entity value of exactly the given type: its
field list is exactly its type's serializable properties in declared order
(with distinct names), each value fitting its property. -/
inductive WTEntity : Ty → Value → Prop
  | mk (ty : Ty) (fs : List (String × Value))
      (hnodup : ((serializableProps ty).map PropDesc.name).Nodup)
      (hfs : WTFields (serializableProps ty) fs) :
      WTEntity ty (.ventity ty fs)

/-- Field lists aligned one-to-one with property descriptors. -/
inductive WTFields : List PropDesc → List (String × Value) → Prop
  | nil : WTFields [] []
  | cons (p : PropDesc) (ps : List PropDesc) (v : Value)
      (fs : List (String × Value)) (hv : WTVal p v)
      (hfs : WTFields ps fs) : WTFields (p :: ps) ((p.name, v) :: fs)

/-- A property value fitting its descriptor: entity-typed single values are
canonical entities of the exact declared type, entity-typed list values are
lists of such entities, scalar values are format-safe. -/
inductive WTVal : PropDesc → Value → Prop
  | entitySingle (p : PropDesc) (child : Ty) (v : Value)
      (hty : p.propertyType = .entityTy child) (hlist : p.isList = false)
      (hv : WTEntity child v) : WTVal p v
  | entityList (p : PropDesc) (child : Ty) (es : List Value)
      (hty : p.propertyType = .entityTy child) (hlist : p.isList = true)
      (hes : ∀ e ∈ es, WTEntity child e) : WTVal p (.vlist es)
  | scalar (p : PropDesc) (v : Value) (hty : p.propertyType.isEntity = false)
      (hv : scalarOk p v = true) : WTVal p v
end

/-- The inheritance chain of a type, the type itself first (specification
wording of §4.2, compared against the do/while loop of
`getPropertyInjectors`). -/
def ancestorChain : Ty → List Ty
  | .mk n b ps i =>
    Ty.mk n b ps i ::
      (match b with
       | some bt => ancestorChain bt
       | none => [])

/-- The key/value pairs a sequence of serialization results contributes to
the output object (the sentinel contributes nothing). -/
def kvOf : List PSResult → List (String × Value) :=
  List.filterMap (fun r =>
    match r with
    | .ignoreProp => none
    | .pair k v => some (k, v))

/-- An initialization context whose instance lookup always misses. -/
def ctx0 : InitializationContext :=
  ⟨fun _ _ => .vundefined⟩

/-- A format environment (irrelevant to the registration-free theorems). -/
def fenv0 : FormatEnv :=
  fun _ _ => .vundefined

/-- Settings with `force: true`. -/
def sForce : SerializationSettings :=
  { useAliases := false, force := true }

/-- Concrete fixture: the `Child` entity type with a single string
property. -/
def pChildName : PropDesc :=
  .mk "name" .strTy false false false none "Child"

def tyChild : Ty :=
  .mk "Child" none [pChildName] none

/-- Concrete fixture: a `CE` type with a scalar, a scalar-list and an
entity-valued property. -/
def pName : PropDesc :=
  .mk "name" .strTy false false false none "CE"

def pNums : PropDesc :=
  .mk "nums" .numTy true false false none "CE"

def pMgr : PropDesc :=
  .mk "manager" (.entityTy tyChild) false false false none "CE"

def tyCE : Ty :=
  .mk "CE" none [pName, pNums, pMgr] none

/-- Concrete fixture: field values of a well-formed `CE` entity. -/
def eAnn : List (String × Value) :=
  [("name", .vstr "Ann"), ("nums", .vlist [.vnum 1, .vnum 2]),
   ("manager", .ventity tyChild [("name", .vstr "Bob")])]

/-- A nested-entity serializer callback that always fails (used to witness
statements in which it cannot be invoked). -/
def entSerFail : Value → Except String Value :=
  fun _ => .error "unused"

/-- A converter producing a fresh pair structurally equal to the
`IgnoreProperty` sentinel but not identical to it. -/
def cTwin : PropertyConverter :=
  ⟨fun _ _ => true, fun _ _ _ _ => .pair "ignore" (.vstr "ignore"), fun _ d _ => d⟩

/-- A converter whose serialization result is the sentinel itself. -/
def cIgn : PropertyConverter :=
  ⟨fun _ _ => true, fun _ _ _ _ => .ignoreProp, fun _ d _ => d⟩

/-- A converter returning a fixed ordinary pair. -/
def cPair : PropertyConverter :=
  ⟨fun _ _ => true, fun _ _ _ _ => .pair "k" (.vstr "x"), fun _ d _ => d⟩

/-- A converter whose deserialization result is the sentinel. -/
def cSentinel : PropertyConverter :=
  ⟨fun _ _ => true, fun _ _ _ _ => .ignoreProp, fun _ _ _ => .ignoreSentinel⟩

/-- A converter whose deserialization result is a fixed string. -/
def cDeserX : PropertyConverter :=
  ⟨fun _ _ => true, fun _ _ _ _ => .ignoreProp, fun _ _ _ => .val (.vstr "x")⟩

/-- A one-property type used by converter fixtures. -/
def pOne : PropDesc :=
  .mk "p1" .strTy false false false none "T1"

def tyOne : Ty :=
  .mk "T1" none [pOne] none

/-- Converter fixture state: only `cTwin` registered. -/
def stTwin : EntitySerializer :=
  registerPropertyConverter emptySerializer cTwin

/-- `cTwin` plus an alias `renamed` for property `p1` of `T1`. -/
def stTwinAlias : EntitySerializer :=
  registerPropertyAlias stTwin (.obj "T1") "renamed" "p1"

/-- Injector fixture colliding with the model property `name` of `CE`. -/
def injName : PropertyInjector :=
  ⟨fun _ => [.pair "name" (.vstr "injected")]⟩

def stInjName : EntitySerializer :=
  registerPropertyInjector emptySerializer (.obj "CE") injName

/-- Inheritance fixture: `Derived` extends `Base`; an injector is
registered under the base type's full-name string. -/
def tyBase : Ty :=
  .mk "Base" none [] none

def pDer : PropDesc :=
  .mk "d" .strTy false false false none "Derived"

def tyDer : Ty :=
  .mk "Derived" (some tyBase) [pDer] none

def injBase : PropertyInjector :=
  ⟨fun _ => [.pair "fromBase" (.vbool true)]⟩

def stInjBase : EntitySerializer :=
  registerPropertyInjector emptySerializer (.str "Base") injBase

/-- Alias fixture: the same key `a` registered under the type object
(mapping to `x`) and under the full-name string (mapping to `y`). -/
def stAlias : EntitySerializer :=
  registerPropertyAlias (registerPropertyAlias emptySerializer (.obj "T") "a" "x")
    (.str "T") "a" "y"

/-- Resolver fixture: the first resolver returns the falsy-but-meaningful
`0`, the second returns a string. -/
def stRes : EntitySerializer :=
  registerValueResolver
    (registerValueResolver emptySerializer (fun _ _ _ => .vnum 0))
    (fun _ _ _ => .vstr "second")

theorem objGet_append (a b : List (String × String)) (k : String) :
    objGet (a ++ b) k =
      match objGet a k with
      | some v => some v
      | none => objGet b k := by
  induction a with
  | nil => simp [objGet]
  | cons kv rest ih =>
    obtain ⟨k1, v1⟩ := kv
    simp only [List.cons_append, objGet]
    by_cases h : k1 = k
    · simp [h]
    · simp [h, ih]

theorem objGet_objSet_self (l : List (String × String)) (k v : String) :
    objGet (objSet l k v) k = some v := by
  induction l with
  | nil => simp [objSet, objGet]
  | cons kv rest ih =>
    obtain ⟨k1, v1⟩ := kv
    simp only [objSet]
    by_cases h : k1 = k
    · simp [h, objGet]
    · simp [h, objGet, ih]

theorem objGet_objSet_ne (l : List (String × String)) (k v k' : String)
    (h : k' ≠ k) : objGet (objSet l k v) k' = objGet l k' := by
  have hne : ¬ k = k' := fun hh => h hh.symm
  induction l with
  | nil => simp [objSet, objGet, hne]
  | cons kv rest ih =>
    obtain ⟨k1, v1⟩ := kv
    simp only [objSet]
    by_cases h1 : k1 = k
    · subst h1
      simp [objGet, hne]
    · simp only [if_neg h1, objGet]
      by_cases h2 : k1 = k'
      · simp [h2]
      · simp [h2, ih]

theorem objGet_objAssign (a b : List (String × String)) (k : String) :
    objGet (objAssign a b) k =
      match objGet b.reverse k with
      | some v => some v
      | none => objGet a k := by
  induction b generalizing a with
  | nil => simp [objAssign, objGet]
  | cons kv rest ih =>
    obtain ⟨k1, v1⟩ := kv
    show objGet (objAssign (objSet a k1 v1) rest) k = _
    rw [ih]
    rw [List.reverse_cons, objGet_append]
    rcases hrk : objGet rest.reverse k with _ | v2
    · simp only [objGet]
      by_cases h : k1 = k
      · subst h
        simp [objGet_objSet_self]
      · simp [h, objGet_objSet_ne a k1 v1 k (fun hh => h hh.symm)]
    · simp

theorem objGet_eq_none (l : List (String × String)) (k : String)
    (h : k ∉ l.map Prod.fst) : objGet l k = none := by
  induction l with
  | nil => rfl
  | cons kv rest ih =>
    obtain ⟨k1, v1⟩ := kv
    simp only [List.map_cons, List.mem_cons] at h
    push_neg at h
    simp only [objGet]
    rw [if_neg (fun hh => h.1 hh.symm)]
    exact ih h.2

theorem objGet_reverse (l : List (String × String)) (k : String)
    (h : (l.map Prod.fst).Nodup) : objGet l.reverse k = objGet l k := by
  induction l with
  | nil => rfl
  | cons kv rest ih =>
    obtain ⟨k1, v1⟩ := kv
    simp only [List.map_cons, List.nodup_cons] at h
    rw [List.reverse_cons, objGet_append, ih h.2]
    by_cases hk : k1 = k
    · subst hk
      rw [objGet_eq_none rest k1 h.1]
      simp [objGet]
    · rcases hr : objGet rest k with _ | v2
      · simp [objGet, hk, hr]
      · simp [objGet, hk, hr]

/-- C10: a falsy property value (null, undefined, 0, empty string, false)
is returned unchanged under the property's declared name by the default
converter, for every property shape — in particular no entity recursion and
no list copy happens (`entSer` is arbitrary and never invoked). -/
theorem serializer_C10 (entSer : Value → Except String Value) (p : PropDesc)
    (v : Value) (hfalsy : truthy v = false) :
    defaultConverterSerialize entSer p v = .ok (.pair p.name v) := by
  simp [defaultConverterSerialize, hfalsy]

theorem serializer_C10_witness :
    truthy (.vnum 0) = false ∧
      defaultConverterSerialize entSerFail pMgr (.vnum 0) =
        .ok (.pair "manager" (.vnum 0)) :=
  ⟨by decide, serializer_C10 entSerFail pMgr (.vnum 0) (by decide)⟩

/-- C9: the ignore sentinel is recognised by identity only: `isIgnore`
holds exactly for the distinguished sentinel object; a structurally equal
but distinct pair (key "ignore", value "ignore") is not the sentinel, is
accepted by the converter scan even under `force`, lands in the serialized
output under the key "ignore", takes part in the duplicate-key check, and
is subject to alias substitution. -/
theorem serializer_C9 :
    (∀ r : PSResult, r.isIgnore = true ↔ r = .ignoreProp) ∧
    PSResult.pair "ignore" (.vstr "ignore") ≠ PSResult.ignoreProp ∧
    convScan entSerFail sForce (.ventity tyOne []) pOne (.vstr "v") [cTwin] =
      .ok (.pair "ignore" (.vstr "ignore")) ∧
    serializeEntity 1 stTwin DefaultSerializationSettings tyOne
      [("p1", .vstr "v")] = .ok (.vobj [("ignore", .vstr "ignore")]) ∧
    buildObject [.pair "ignore" (.vstr "ignore"), .pair "ignore" (.vstr "other")] =
      .error (dupKeyMsg "ignore") ∧
    serializePropertyValue entSerFail stTwinAlias
      { useAliases := true, force := true } (.ventity tyOne []) pOne
      (.vstr "v") = .ok (.pair "renamed" (.vstr "ignore")) := by
  refine ⟨?_, by simp, by rfl, by rfl, by rfl, by rfl⟩
  intro r
  cases r <;> simp [PSResult.isIgnore]

/-- C7 (amended): `resolveValue` runs the resolvers in registration order
and returns the first truthy result; a falsy result — including the
meaningful values 0, empty string and false — is treated as "no result" and
the scan continues; with no truthy result the call yields `undefined`. -/
theorem serializer_C7_amended :
    (∀ st e p v, resolveValue st e p v = rvScan e p v st.valueResolvers) ∧
    (∀ e p v (r : AsyncValueResolver) rest, truthy (r e p v) = true →
      rvScan e p v (r :: rest) = r e p v) ∧
    (∀ e p v (r : AsyncValueResolver) rest, truthy (r e p v) = false →
      rvScan e p v (r :: rest) = rvScan e p v rest) ∧
    (∀ e p v, rvScan e p v [] = .vundefined) ∧
    (∀ st r, (registerValueResolver st r).valueResolvers =
      st.valueResolvers ++ [r]) := by
  refine ⟨fun st e p v => rfl, ?_, ?_, fun e p v => rfl, fun st r => rfl⟩
  · intro e p v r rest h
    simp [rvScan, h]
  · intro e p v r rest h
    simp [rvScan, h]

/-- C7 counterexample: with a resolver returning the falsy-but-meaningful
`0` registered first and a resolver returning `"second"` registered next,
`resolveValue` skips the `0` and returns `"second"`, contradicting the
claim that zero must not be treated as "no result". -/
theorem serializer_C7_counterexample :
    resolveValue stRes (.ventity tyOne []) pOne .vnull = .vstr "second" ∧
      Value.vstr "second" ≠ Value.vnum 0 :=
  ⟨rfl, by simp⟩

theorem serializer_C7_witness :
    rvScan (.ventity tyOne []) pOne .vnull [fun _ _ _ => .vbool true] =
      .vbool true :=
  serializer_C7_amended.2.1 (.ventity tyOne []) pOne .vnull
    (fun _ _ _ => .vbool true) [] (by decide)

/-- C6 (amended): `getPropertyAliases` merges the lookup registered under
the type object with the one registered under the type's full name, but the
merge is `Object.assign`, so for a key bound in both the full-name entry
takes precedence over (overrides) the type-object entry. -/
theorem serializer_C6_amended (st : EntitySerializer) (n k : String)
    (hobj : (((mapGet st.propertyAliases (.obj n)).getD []).map Prod.fst).Nodup)
    (hstr : (((mapGet st.propertyAliases (.str n)).getD []).map Prod.fst).Nodup) :
    objGet (getPropertyAliases st n) k =
      match objGet ((mapGet st.propertyAliases (.str n)).getD []) k with
      | some v => some v
      | none => objGet ((mapGet st.propertyAliases (.obj n)).getD []) k := by
  unfold getPropertyAliases
  rw [objGet_objAssign, objGet_reverse _ _ hstr, objGet_objAssign,
    objGet_reverse _ _ hobj]
  rcases h1 : objGet ((mapGet st.propertyAliases (.str n)).getD []) k with _ | v
  · rcases h2 : objGet ((mapGet st.propertyAliases (.obj n)).getD []) k with _ | w
    · simp [objGet]
    · simp
  · simp

/-- C6 counterexample: key "a" is registered as an alias under the type
object of "T" (mapping to "x") and under the full-name string "T" (mapping
to "y"); the merged lookup returns the full-name binding "y", so full-name
entries do override type-object entries and the merge is order-dependent,
contradicting the claim. -/
theorem serializer_C6_counterexample :
    objGet (getPropertyAliases stAlias "T") "a" = some "y" ∧
      ("y" : String) ≠ "x" :=
  ⟨rfl, by simp⟩

theorem serializer_C6_witness :
    objGet (getPropertyAliases stAlias "T") "a" =
      match objGet ((mapGet stAlias.propertyAliases (.str "T")).getD []) "a" with
      | some v => some v
      | none => objGet ((mapGet stAlias.propertyAliases (.obj "T")).getD []) "a" :=
  serializer_C6_amended stAlias "T" "a" (by decide) (by decide)

/-- C8: deserializing a single-valued entity-typed property with
`constructEntity` true, when the converter-processed data is neither an
instance of the target entity type nor an object, produces no value
(`undefined`) and raises no exception. -/
theorem serializer_C8 (f : Nat) (st : EntitySerializer) (inst : Value)
    (data0 : DData) (p : PropDesc) (ctx : InitializationContext)
    (fenv : FormatEnv) (child : Ty) (d : Value)
    (hty : p.propertyType = .entityTy child) (hlist : p.isList = false)
    (hconv : applyDeserializeConverter st inst data0 p = .val d)
    (hinst : instanceOfTy d child = false) (hobj : isObjectJS d = false) :
    deserialize (f + 1) st inst data0 p ctx fenv true = .ok .vundefined := by
  rw [deserialize_succ, hconv]
  unfold shapeDeserialize
  rw [hty]
  simp [hlist, hinst, hobj]

theorem serializer_C8_witness :
    deserialize 1 emptySerializer (.ventity tyCE []) (.val (.vnum 5)) pMgr
      ctx0 fenv0 true = .ok .vundefined :=
  serializer_C8 0 emptySerializer (.ventity tyCE []) (.val (.vnum 5)) pMgr
    ctx0 fenv0 tyChild (.vnum 5) rfl rfl rfl (by decide) (by decide)

/-- C2: during serialization the converter chain is filtered by
`shouldConvert` and scanned in most-recently-registered order (registration
prepends); with `force` unset the first candidate's result is accepted even
if it is the ignore sentinel; with `force` set a sentinel result causes the
scan to move to the next candidate while any other result is accepted; an
empty filtered chain, or one whose candidates all returned the sentinel
under `force`, falls back to the built-in default converter. -/
theorem serializer_C2 :
    (∀ st c, (registerPropertyConverter st c).propertyConverters =
      c :: st.propertyConverters) ∧
    (∀ entSer settings e p v,
      convScan entSer settings e p v [] = defaultConverterSerialize entSer p v) ∧
    (∀ entSer settings e p v c rest, settings.force = false →
      convScan entSer settings e p v (c :: rest) =
        .ok (c.serializeValue e v p settings)) ∧
    (∀ entSer settings e p v c rest, settings.force = true →
      (c.serializeValue e v p settings).isIgnore = false →
      convScan entSer settings e p v (c :: rest) =
        .ok (c.serializeValue e v p settings)) ∧
    (∀ entSer settings e p v c rest, settings.force = true →
      (c.serializeValue e v p settings).isIgnore = true →
      convScan entSer settings e p v (c :: rest) =
        convScan entSer settings e p v rest) ∧
    (∀ entSer settings e p v cs, settings.force = true →
      (∀ c ∈ cs, (c.serializeValue e v p settings).isIgnore = true) →
      convScan entSer settings e p v cs = defaultConverterSerialize entSer p v) ∧
    (∀ entSer st settings e p v, settings.useAliases = false →
      serializePropertyValue entSer st settings e p v =
        convScan entSer settings e p v
          (st.propertyConverters.filter (fun c => c.shouldConvert e p))) := by
  refine ⟨fun st c => rfl, fun entSer settings e p v => rfl, ?_, ?_, ?_, ?_, ?_⟩
  · intro entSer settings e p v c rest hf
    simp [convScan, hf]
  · intro entSer settings e p v c rest hf hig
    simp [convScan, hf, hig]
  · intro entSer settings e p v c rest hf hig
    simp [convScan, hf, hig]
  · intro entSer settings e p v cs hf hall
    induction cs with
    | nil => rfl
    | cons c rest ih =>
      have hc := hall c (by simp)
      simp only [convScan, hf, hc]
      simpa using ih (fun c hm => hall c (by simp [hm]))
  · intro entSer st settings e p v hua
    rcases hscan : convScan entSer settings e p v
        (st.propertyConverters.filter (fun c => c.shouldConvert e p)) with msg | r
    · simp only [serializePropertyValue, hscan]
      rfl
    · cases r
      · simp only [serializePropertyValue, hscan, hua]
        rfl
      · simp only [serializePropertyValue, hscan, hua]
        rfl

theorem serializer_C2_witness :
    convScan entSerFail sForce (.ventity tyOne []) pOne .vnull [cIgn, cPair] =
      .ok (.pair "k" (.vstr "x")) := by
  rw [serializer_C2.2.2.2.2.1 entSerFail sForce (.ventity tyOne []) pOne .vnull
      cIgn [cPair] rfl rfl,
    serializer_C2.2.2.2.1 entSerFail sForce (.ventity tyOne []) pOne .vnull
      cPair [] rfl rfl]
  rfl

/-- C3: deserialization applies only the first registered converter (in
current precedence order, most recently registered first) whose
`shouldConvert` is true — if its result is the ignore sentinel no value is
produced, regardless of any later matching converters (no fallback scan) —
and with no matching converter the raw input value flows unmodified into
the shape-based conversion logic. -/
theorem serializer_C3 (f : Nat) (st : EntitySerializer) (inst : Value)
    (data0 : DData) (p : PropDesc) (ctx : InitializationContext)
    (fenv : FormatEnv) (b : Bool) :
    (∀ c, st.propertyConverters.find? (fun c => c.shouldConvert inst p) = some c →
      deserialize (f + 1) st inst data0 p ctx fenv b =
        match c.deserializeValue inst data0 p with
        | .ignoreSentinel => .ok .vundefined
        | .val d =>
          shapeDeserialize (fun i v q => deserialize f st i (.val v) q ctx fenv true)
            fenv inst d p ctx b) ∧
    (st.propertyConverters.find? (fun c => c.shouldConvert inst p) = none →
      ∀ v, data0 = .val v →
        deserialize (f + 1) st inst data0 p ctx fenv b =
          shapeDeserialize (fun i v q => deserialize f st i (.val v) q ctx fenv true)
            fenv inst v p ctx b) ∧
    (∀ c rest, c.shouldConvert inst p = true →
      c.deserializeValue inst data0 p = .ignoreSentinel →
      deserialize (f + 1) { st with propertyConverters := c :: rest } inst
        data0 p ctx fenv b = .ok .vundefined) ∧
    (∀ st2 c, (registerPropertyConverter st2 c).propertyConverters =
      c :: st2.propertyConverters) := by
  refine ⟨?_, ?_, ?_, fun st2 c => rfl⟩
  · intro c hfind
    rw [deserialize_succ]
    unfold applyDeserializeConverter
    rw [hfind]
  · intro hfind v hdata
    rw [deserialize_succ]
    unfold applyDeserializeConverter
    rw [hfind, hdata]
  · intro c rest hshould hsent
    rw [deserialize_succ]
    unfold applyDeserializeConverter
    have hfind : List.find? (fun c => c.shouldConvert inst p) (c :: rest) = some c :=
      List.find?_cons_of_pos _ hshould
    rw [hfind]
    simp only [hsent]

theorem serializer_C3_witness :
    deserialize 1 { emptySerializer with propertyConverters := [cSentinel, cDeserX] }
      (.ventity tyOne []) (.val (.vstr "raw")) pOne ctx0 fenv0 true =
      .ok .vundefined :=
  (serializer_C3 0 emptySerializer (.ventity tyOne []) (.val (.vstr "raw"))
    pOne ctx0 fenv0 true).2.2.1 cSentinel [cDeserX] rfl rfl

theorem kvOf_append (a b : List PSResult) : kvOf (a ++ b) = kvOf a ++ kvOf b := by
  simp [kvOf]

theorem foldl_addPair_error (ps : List PSResult) (e : String) :
    ps.foldl addPair (.error e) = .error e := by
  induction ps with
  | nil => rfl
  | cons r rest ih => simpa [addPair] using ih

theorem foldl_addPair_ok (ps : List PSResult) :
    ∀ fs fs' : List (String × Value), (fs.map Prod.fst).Nodup →
      ps.foldl addPair (.ok fs) = .ok fs' →
      fs' = fs ++ kvOf ps ∧ (fs'.map Prod.fst).Nodup := by
  induction ps with
  | nil =>
    intro fs fs' hnd h
    simp only [List.foldl_nil, Except.ok.injEq] at h
    subst h
    simp [kvOf, hnd]
  | cons r rest ih =>
    intro fs fs' hnd h
    simp only [List.foldl_cons] at h
    cases r with
    | ignoreProp =>
      have := ih fs fs' hnd (by simpa [addPair] using h)
      simpa [kvOf] using this
    | pair k v =>
      by_cases hany : fs.any (fun q => q.1 = k)
      · rw [show addPair (.ok fs) (.pair k v) = .error (dupKeyMsg k) by
          simp [addPair, hany]] at h
        rw [foldl_addPair_error] at h
        exact absurd h (by simp)
      · rw [show addPair (.ok fs) (.pair k v) = .ok (fs ++ [(k, v)]) by
          simp [addPair, hany]] at h
        have hknotin : k ∉ fs.map Prod.fst := by
          intro hk
          apply hany
          rw [List.any_eq_true]
          rcases List.mem_map.mp hk with ⟨q, hq, hqk⟩
          exact ⟨q, hq, by simp [hqk]⟩
        have hnd2 : ((fs ++ [(k, v)]).map Prod.fst).Nodup := by
          simp only [List.map_append, List.map_cons, List.map_nil]
          rw [List.nodup_append]
          exact ⟨hnd, List.nodup_singleton k, by simpa using hknotin⟩
        have := ih (fs ++ [(k, v)]) fs' hnd2 h
        refine ⟨?_, this.2⟩
        rw [this.1, List.append_assoc]
        simp [kvOf]
  
theorem foldl_addPair_err_of_dup (ps : List PSResult) :
    ∀ fs : List (String × Value), (fs.map Prod.fst).Nodup →
      ¬ ((fs ++ kvOf ps).map Prod.fst).Nodup →
      ∃ k, k ∈ (kvOf ps).map Prod.fst ∧
        ps.foldl addPair (.ok fs) = .error (dupKeyMsg k) := by
  induction ps with
  | nil =>
    intro fs hnd hdup
    exact absurd (by simpa [kvOf] using hnd) hdup
  | cons r rest ih =>
    intro fs hnd hdup
    cases r with
    | ignoreProp =>
      have hdup2 : ¬ ((fs ++ kvOf rest).map Prod.fst).Nodup := by
        simpa [kvOf] using hdup
      rcases ih fs hnd hdup2 with ⟨k, hk, hfold⟩
      exact ⟨k, by simpa [kvOf] using hk, by simpa [addPair] using hfold⟩
    | pair k v =>
      by_cases hany : fs.any (fun q => q.1 = k)
      · refine ⟨k, by simp [kvOf], ?_⟩
        simp only [List.foldl_cons]
        rw [show addPair (.ok fs) (.pair k v) = .error (dupKeyMsg k) by
          simp [addPair, hany]]
        exact foldl_addPair_error rest (dupKeyMsg k)
      · have hknotin : k ∉ fs.map Prod.fst := by
          intro hk
          apply hany
          rw [List.any_eq_true]
          rcases List.mem_map.mp hk with ⟨q, hq, hqk⟩
          exact ⟨q, hq, by simp [hqk]⟩
        have hnd2 : ((fs ++ [(k, v)]).map Prod.fst).Nodup := by
          simp only [List.map_append, List.map_cons, List.map_nil]
          rw [List.nodup_append]
          exact ⟨hnd, List.nodup_singleton k, by simpa using hknotin⟩
        have hdup2 : ¬ (((fs ++ [(k, v)]) ++ kvOf rest).map Prod.fst).Nodup := by
          rw [List.append_assoc]
          simpa [kvOf] using hdup
        rcases ih (fs ++ [(k, v)]) hnd2 hdup2 with ⟨k', hk', hfold⟩
        have hcons : kvOf (PSResult.pair k v :: rest) = (k, v) :: kvOf rest := by
          simp [kvOf]
        refine ⟨k', by rw [hcons, List.map_cons]; exact List.mem_cons_of_mem _ hk', ?_⟩
        simp only [List.foldl_cons]
        rw [show addPair (.ok fs) (.pair k v) = .ok (fs ++ [(k, v)]) by
          simp [addPair, hany]]
        exact hfold

theorem buildObject_eq_ok (ps : List PSResult) (w : Value)
    (h : buildObject ps = .ok w) :
    w = .vobj (kvOf ps) ∧ ((kvOf ps).map Prod.fst).Nodup := by
  unfold buildObject at h
  rcases hf : ps.foldl addPair (.ok []) with e | fs'
  · rw [hf] at h
    exact absurd h (by simp [Except.map])
  · rw [hf] at h
    have hfs := foldl_addPair_ok ps [] fs' (by simp) hf
    simp only [Except.map, Except.ok.injEq] at h
    subst h
    simp only [List.nil_append] at hfs
    exact ⟨by rw [hfs.1], hfs.1 ▸ hfs.2⟩

theorem buildObject_eq_err_of_dup (ps : List PSResult)
    (hdup : ¬ ((kvOf ps).map Prod.fst).Nodup) :
    ∃ k, k ∈ (kvOf ps).map Prod.fst ∧
      buildObject ps = .error (dupKeyMsg k) := by
  rcases foldl_addPair_err_of_dup ps [] (by simp) (by simpa using hdup) with ⟨k, hk, hf⟩
  exact ⟨k, hk, by simp [buildObject, hf, Except.map]⟩

/-- C4: if the serialized pair sequence (injected pairs plus model-property
pairs) contains two non-ignored pairs with the same key, `serialize` raises
the descriptive duplicate-key error and returns no result object; when it
does return an object, that object binds exactly the non-ignored pairs, each
key exactly once — no key is silently overwritten. -/
theorem serializer_C4 (f : Nat) (st : EntitySerializer)
    (settings : SerializationSettings) (ty : Ty)
    (fields : List (String × Value)) (pairs : List PSResult)
    (hpairs : serializedPairs (entSerialize f st settings) st settings ty fields =
      .ok pairs) :
    (¬ ((kvOf pairs).map Prod.fst).Nodup →
      ∃ k, k ∈ (kvOf pairs).map Prod.fst ∧
        serializeEntity (f + 1) st settings ty fields = .error (dupKeyMsg k)) ∧
    (∀ out, serializeEntity (f + 1) st settings ty fields = .ok (.vobj out) →
      out = kvOf pairs ∧ (out.map Prod.fst).Nodup) := by
  have hse : serializeEntity (f + 1) st settings ty fields = buildObject pairs := by
    rw [serializeEntity_succ, hpairs]
    rfl
  constructor
  · intro hdup
    rcases buildObject_eq_err_of_dup pairs hdup with ⟨k, hk, hb⟩
    exact ⟨k, hk, by rw [hse, hb]⟩
  · intro out hout
    rw [hse] at hout
    have := buildObject_eq_ok pairs _ hout
    rcases this with ⟨hw, hnd⟩
    injection hw with h2
    exact ⟨h2, h2 ▸ hnd⟩

theorem serializer_C4_witness :
    ∃ k, k ∈ (kvOf [PSResult.pair "name" (.vstr "injected"),
        PSResult.pair "name" (.vstr "Ann"),
        PSResult.pair "nums" (.vlist [.vnum 1, .vnum 2]),
        PSResult.pair "manager" (.vobj [("name", .vstr "Bob")])]).map Prod.fst ∧
      serializeEntity 2 stInjName DefaultSerializationSettings tyCE eAnn =
        .error (dupKeyMsg k) :=
  (serializer_C4 1 stInjName DefaultSerializationSettings tyCE eAnn
    [PSResult.pair "name" (.vstr "injected"),
     PSResult.pair "name" (.vstr "Ann"),
     PSResult.pair "nums" (.vlist [.vnum 1, .vnum 2]),
     PSResult.pair "manager" (.vobj [("name", .vstr "Bob")])] rfl).1 (by decide)

theorem getPropertyInjectors_eq_chain (st : EntitySerializer) : (ty : Ty) →
    getPropertyInjectors st ty = flatMapL (getInjectorsOrDefault st) (ancestorChain ty)
  | .mk n b ps i => by
    cases b with
    | none => simp [getPropertyInjectors, ancestorChain, flatMapL]
    | some bt =>
      simp only [getPropertyInjectors, ancestorChain, flatMapL]
      rw [getPropertyInjectors_eq_chain st bt]

/-- C5: injector collection walks the inheritance chain most-derived first
(the type itself included), merging type-object and full-name registrations
at each level; in a successful serialization the output binds all
(non-ignored) injected pairs before all (non-ignored) model-property pairs,
and the model-property pairs come from the declared property list with
calculated and constant properties filtered out. -/
theorem serializer_C5 :
    (∀ st ty, getPropertyInjectors st ty =
      flatMapL (getInjectorsOrDefault st) (ancestorChain ty)) ∧
    (∀ ty, serializableProps ty =
      ty.properties.filter (fun p => !p.isCalculated && !p.isConstant)) ∧
    (∀ f st settings ty fields prs out,
      mapSPV (entSerialize f st settings) st settings (.ventity ty fields) fields
        (serializableProps ty) = .ok prs →
      serializeEntity (f + 1) st settings ty fields = .ok (.vobj out) →
      out = kvOf (flatMapL (fun i => i.inject (.ventity ty fields))
          (getPropertyInjectors st ty)) ++ kvOf prs) := by
  refine ⟨getPropertyInjectors_eq_chain, fun ty => rfl, ?_⟩
  intro f st settings ty fields prs out hm hs
  rw [serializeEntity_succ] at hs
  unfold serializedPairs at hs
  simp only [hm] at hs
  have hs2 : buildObject
      (flatMapL (fun i => i.inject (.ventity ty fields)) (getPropertyInjectors st ty)
        ++ prs) = .ok (.vobj out) := hs
  have := buildObject_eq_ok _ _ hs2
  have hout : Value.vobj out = .vobj (kvOf
      (flatMapL (fun i => i.inject (.ventity ty fields)) (getPropertyInjectors st ty)
        ++ prs)) := this.1
  injection hout with hout
  rw [hout, kvOf_append]

theorem serializer_C5_witness :
    ([("fromBase", Value.vbool true), ("d", Value.vstr "v")] :
        List (String × Value)) =
      kvOf (flatMapL (fun i => i.inject (.ventity tyDer [("d", .vstr "v")]))
          (getPropertyInjectors stInjBase tyDer)) ++
        kvOf [PSResult.pair "d" (.vstr "v")] :=
  serializer_C5.2.2 0 stInjBase DefaultSerializationSettings tyDer
    [("d", .vstr "v")] [PSResult.pair "d" (.vstr "v")]
    [("fromBase", .vbool true), ("d", .vstr "v")] rfl rfl

theorem getPropertyInjectors_empty : (ty : Ty) →
    getPropertyInjectors emptySerializer ty = []
  | .mk n b ps i => by
    cases b with
    | none =>
      simp [getPropertyInjectors, getInjectorsOrDefault, emptySerializer, mapGet]
    | some bt =>
      have h := getPropertyInjectors_empty bt
      simp only [emptySerializer] at h ⊢
      simp [getPropertyInjectors, getInjectorsOrDefault, mapGet, h]

theorem aliasedKey_empty (p : PropDesc) (k : String) :
    aliasedKey emptySerializer p k = k :=
  rfl

theorem entSerialize_entity (f : Nat) (st : EntitySerializer)
    (settings : SerializationSettings) (t : Ty) (fs : List (String × Value)) :
    entSerialize f st settings (.ventity t fs) = serializeEntity f st settings t fs :=
  rfl

theorem spv_empty (entSer : Value → Except String Value)
    (settings : SerializationSettings) (entity : Value) (p : PropDesc)
    (v : Value) :
    serializePropertyValue entSer emptySerializer settings entity p v =
      defaultConverterSerialize entSer p v := by
  have hL : serializePropertyValue entSer emptySerializer settings entity p v =
      (do
        let result ← defaultConverterSerialize entSer p v
        match result with
        | PSResult.pair k w =>
          if settings.useAliases then
            Except.ok (PSResult.pair (aliasedKey emptySerializer p k) w)
          else Except.ok (PSResult.pair k w)
        | r => Except.ok r) := rfl
  rw [hL]
  rcases hd : defaultConverterSerialize entSer p v with e | r
  · rfl
  · cases r with
    | ignoreProp => rfl
    | pair k w =>
      show (if settings.useAliases then
          Except.ok (PSResult.pair (aliasedKey emptySerializer p k) w)
        else Except.ok (PSResult.pair k w)) = _
      cases hua : settings.useAliases <;> simp [hua, aliasedKey_empty]

theorem defaultConv_falsy (entSer : Value → Except String Value) (p : PropDesc)
    (v : Value) (h : truthy v = false) :
    defaultConverterSerialize entSer p v = .ok (.pair p.name v) := by
  unfold defaultConverterSerialize
  rw [h]
  simp

theorem defaultConv_scalar_truthy (entSer : Value → Except String Value)
    (p : PropDesc) (v : Value) (ht : truthy v = true)
    (hty : p.propertyType.isEntity = false) :
    defaultConverterSerialize entSer p v =
      if p.isList then
        match v with
        | .vlist es => .ok (.pair p.name (.vlist es))
        | .vstr s => .ok (.pair p.name (.vstr s))
        | _ => .error "TypeError: value.slice is not a function"
      else .ok (.pair p.name v) := by
  unfold defaultConverterSerialize
  rw [ht, hty]
  simp only [Bool.false_eq_true, if_false]
  cases hl : p.isList
  · simp
  · simp only [if_true]
    cases v <;> rfl

theorem defaultConv_entity_single (entSer : Value → Except String Value)
    (p : PropDesc) (t : Ty) (fs : List (String × Value))
    (hty : p.propertyType.isEntity = true) (hlist : p.isList = false) :
    defaultConverterSerialize entSer p (.ventity t fs) =
      (do
        let o ← entSer (.ventity t fs)
        Except.ok (.pair p.name o)) := by
  unfold defaultConverterSerialize
  rw [hty, hlist]
  simp [truthy]

theorem defaultConv_entity_list (entSer : Value → Except String Value)
    (p : PropDesc) (es : List Value) (hty : p.propertyType.isEntity = true)
    (hlist : p.isList = true) :
    defaultConverterSerialize entSer p (.vlist es) =
      (do
        let os ← es.mapM entSer
        Except.ok (.pair p.name (.vlist os))) := by
  unfold defaultConverterSerialize
  rw [hty, hlist]
  simp [truthy, Value.isArray]

theorem canonPV_scalar (p : PropDesc) (v : Value)
    (hty : p.propertyType.isEntity = false) : canonPV p v = v := by
  unfold canonPV
  rw [hty]
  simp

theorem canonPV_entity_single (p : PropDesc) (t : Ty)
    (fs : List (String × Value)) (hty : p.propertyType.isEntity = true)
    (hlist : p.isList = false) :
    canonPV p (.ventity t fs) = .vobj (canonFields (serializableProps t) fs) := by
  unfold canonPV
  rw [hty, hlist]
  simp [truthy]

theorem canonPV_entity_list (p : PropDesc) (es : List Value)
    (hty : p.propertyType.isEntity = true) (hlist : p.isList = true) :
    canonPV p (.vlist es) = .vlist (canonEnts es) := by
  unfold canonPV
  rw [hty, hlist]
  simp [truthy]

theorem canonEnts_cons_entity (t : Ty) (fs : List (String × Value))
    (es : List Value) :
    canonEnts (.ventity t fs :: es) =
      .vobj (canonFields (serializableProps t) fs) :: canonEnts es :=
  rfl

theorem mapM_entSer_canon (f : Nat) (settings : SerializationSettings)
    (IH : ∀ ty2 fs2 out2, WTEntity ty2 (.ventity ty2 fs2) →
      serializeEntity f emptySerializer settings ty2 fs2 = .ok out2 →
      out2 = .vobj (canonFields (serializableProps ty2) fs2)) :
    ∀ (child : Ty) (es : List Value) (os : List Value),
      (∀ e ∈ es, WTEntity child e) →
      es.mapM (entSerialize f emptySerializer settings) = .ok os →
      os = canonEnts es := by
  intro child es
  induction es with
  | nil =>
    intro os _ hm
    simp only [List.mapM_nil, pure, Except.pure, Except.ok.injEq] at hm
    subst hm
    rfl
  | cons e es' ih =>
    intro os hall hm
    have hwte := hall e (by simp)
    cases hwte with
    | mk child fs2 hnodup hfs =>
      rw [List.mapM_cons, entSerialize_entity] at hm
      rcases hser : serializeEntity f emptySerializer settings child fs2 with err | o
      · rw [hser] at hm
        exact absurd hm (by simp [Bind.bind, Except.bind])
      · rw [hser] at hm
        rcases hrest : es'.mapM (entSerialize f emptySerializer settings) with err | os'
        · rw [hrest] at hm
          exact absurd hm (by simp [Bind.bind, Except.bind])
        · rw [hrest] at hm
          simp only [Bind.bind, Except.bind, pure, Except.pure, Except.ok.injEq] at hm
          subst hm
          rw [canonEnts_cons_entity,
            ih os' (fun x hx => hall x (List.mem_cons_of_mem _ hx)) hrest,
            IH child fs2 o (WTEntity.mk child fs2 hnodup hfs) hser]

theorem default_canon (f : Nat) (settings : SerializationSettings)
    (IH : ∀ ty2 fs2 out2, WTEntity ty2 (.ventity ty2 fs2) →
      serializeEntity f emptySerializer settings ty2 fs2 = .ok out2 →
      out2 = .vobj (canonFields (serializableProps ty2) fs2)) :
    ∀ (p : PropDesc) (v : Value) (r : PSResult), WTVal p v →
      defaultConverterSerialize (entSerialize f emptySerializer settings) p v = .ok r →
      r = .pair p.name (canonPV p v) := by
  intro p v r hwt hd
  cases hwt with
  | scalar p v hty hsc =>
    rw [canonPV_scalar p v hty]
    by_cases ht : truthy v
    · rw [defaultConv_scalar_truthy _ p v ht hty] at hd
      cases hl : p.isList with
      | false =>
        rw [hl] at hd
        simp only [Bool.false_eq_true, if_false, Except.ok.injEq] at hd
        exact hd.symm
      | true =>
        rw [hl] at hd
        simp only [if_true] at hd
        cases v <;> simp_all
    · rw [defaultConv_falsy _ p v (by simpa using ht)] at hd
      injection hd with hd
      exact hd.symm
  | entitySingle p child v hty hlist hent =>
    cases hent with
    | mk child fs2 hnodup hfs =>
      rw [canonPV_entity_single p child fs2 (by rw [hty]; rfl) hlist]
      rw [defaultConv_entity_single _ p child fs2 (by rw [hty]; rfl) hlist,
        entSerialize_entity] at hd
      rcases hser : serializeEntity f emptySerializer settings child fs2 with err | o
      · rw [hser] at hd
        exact absurd hd (by simp [Bind.bind, Except.bind])
      · rw [hser] at hd
        simp only [Bind.bind, Except.bind, Except.ok.injEq] at hd
        rw [IH child fs2 o (WTEntity.mk child fs2 hnodup hfs) hser] at hd
        exact hd.symm
  | entityList p child es hty hlist hes =>
    rw [canonPV_entity_list p es (by rw [hty]; rfl) hlist]
    rw [defaultConv_entity_list _ p es (by rw [hty]; rfl) hlist] at hd
    rcases hm : es.mapM (entSerialize f emptySerializer settings) with err | os
    · rw [hm] at hd
      exact absurd hd (by simp [Bind.bind, Except.bind])
    · rw [hm] at hd
      simp only [Bind.bind, Except.bind, Except.ok.injEq] at hd
      rw [mapM_entSer_canon f settings IH child es os hes hm] at hd
      exact hd.symm

theorem fieldVal_append_not_mem (a b : List (String × Value)) (k : String)
    (h : k ∉ a.map Prod.fst) : fieldVal (a ++ b) k = fieldVal b k := by
  induction a with
  | nil => rfl
  | cons kv rest ih =>
    obtain ⟨k1, v1⟩ := kv
    simp only [List.map_cons, List.mem_cons] at h
    push_neg at h
    simp only [List.cons_append, fieldVal]
    rw [if_neg (fun hh => h.1 hh.symm)]
    exact ih h.2

theorem wtfields_keys (ps : List PropDesc) (fs : List (String × Value))
    (h : WTFields ps fs) : fs.map Prod.fst = ps.map PropDesc.name := by
  induction ps generalizing fs with
  | nil => cases h; rfl
  | cons p ps' ih =>
    cases h with
    | cons _ _ v fs' hv hfs => simp [ih fs' hfs]

theorem canonFields_cons (p : PropDesc) (ps : List PropDesc) (k : String)
    (v : Value) (fs : List (String × Value)) :
    canonFields (p :: ps) ((k, v) :: fs) = (k, canonPV p v) :: canonFields ps fs :=
  rfl

theorem wtfields_lookup_raw (ps : List PropDesc) :
    ∀ (fs : List (String × Value)), WTFields ps fs →
      ∀ pre : List (String × Value),
      (∀ p ∈ ps, p.name ∉ pre.map Prod.fst) →
      (ps.map PropDesc.name).Nodup →
      List.Forall₂ (fun p kv => fieldVal (pre ++ fs) p.name = kv.2) ps fs := by
  induction ps with
  | nil =>
    intro fs h pre _ _
    cases h
    exact List.Forall₂.nil
  | cons p ps' ih =>
    intro fs h pre hpre hnd
    cases h with
    | cons _ _ v fs' hv hfs =>
      simp only [List.map_cons, List.nodup_cons] at hnd
      constructor
      · rw [fieldVal_append_not_mem pre _ _ (hpre p (by simp))]
        simp [fieldVal]
      · have hres := ih fs' hfs (pre ++ [(p.name, v)]) ?_ hnd.2
        · rw [List.append_assoc] at hres
          simpa using hres
        · intro q hq
          simp only [List.map_append, List.mem_append]
          push_neg
          refine ⟨hpre q (List.mem_cons_of_mem _ hq), ?_⟩
          simp only [List.map_cons, List.map_nil, List.mem_singleton]
          intro hqe
          exact hnd.1 (hqe ▸ List.mem_map_of_mem PropDesc.name hq)

theorem wtfields_lookup_canon (ps : List PropDesc) :
    ∀ (fs : List (String × Value)), WTFields ps fs →
      ∀ pre : List (String × Value),
      (∀ p ∈ ps, p.name ∉ pre.map Prod.fst) →
      (ps.map PropDesc.name).Nodup →
      List.Forall₂ (fun p kv => fieldVal (pre ++ canonFields ps fs) p.name = canonPV p kv.2)
        ps fs := by
  induction ps with
  | nil =>
    intro fs h pre _ _
    cases h
    exact List.Forall₂.nil
  | cons p ps' ih =>
    intro fs h pre hpre hnd
    cases h with
    | cons _ _ v fs' hv hfs =>
      simp only [List.map_cons, List.nodup_cons] at hnd
      rw [canonFields_cons]
      constructor
      · rw [fieldVal_append_not_mem pre _ _ (hpre p (by simp))]
        simp [fieldVal]
      · have hres := ih fs' hfs (pre ++ [(p.name, canonPV p v)]) ?_ hnd.2
        · rw [List.append_assoc] at hres
          simpa using hres
        · intro q hq
          simp only [List.map_append, List.mem_append]
          push_neg
          refine ⟨hpre q (List.mem_cons_of_mem _ hq), ?_⟩
          simp only [List.map_cons, List.map_nil, List.mem_singleton]
          intro hqe
          exact hnd.1 (hqe ▸ List.mem_map_of_mem PropDesc.name hq)

theorem wtfields_forall2_wtval (ps : List PropDesc) :
    ∀ (fs : List (String × Value)), WTFields ps fs →
      List.Forall₂ (fun p kv => WTVal p kv.2) ps fs := by
  induction ps with
  | nil =>
    intro fs h
    cases h
    exact List.Forall₂.nil
  | cons p ps' ih =>
    intro fs h
    cases h with
    | cons _ _ v fs' hv hfs => exact List.Forall₂.cons hv (ih fs' hfs)

theorem forall2_and {α β : Type} {R S : α → β → Prop} :
    ∀ {l1 : List α} {l2 : List β}, List.Forall₂ R l1 l2 → List.Forall₂ S l1 l2 →
      List.Forall₂ (fun a b => R a b ∧ S a b) l1 l2 := by
  intro l1 l2 h
  induction h with
  | nil => intro _; exact List.Forall₂.nil
  | cons hr hrest ih =>
    intro hs
    cases hs with
    | cons hs1 hs2 => exact List.Forall₂.cons ⟨hr, hs1⟩ (ih hs2)

theorem forall2_mem_left {α β : Type} {R : α → β → Prop} :
    ∀ {l1 : List α} {l2 : List β}, List.Forall₂ R l1 l2 →
      ∀ a ∈ l1, ∃ b ∈ l2, R a b := by
  intro l1 l2 h
  induction h with
  | nil => intro a ha; exact absurd ha (by simp)
  | cons hr hrest ih =>
    intro a ha
    rcases List.mem_cons.mp ha with rfl | ha2
    · exact ⟨_, by simp, hr⟩
    · rcases ih a ha2 with ⟨b, hb, hab⟩
      exact ⟨b, List.mem_cons_of_mem _ hb, hab⟩

theorem kvOf_map_pair (l : List (String × Value)) :
    kvOf (l.map (fun kv => PSResult.pair kv.1 kv.2)) = l := by
  induction l with
  | nil => rfl
  | cons kv rest ih =>
    simp [kvOf] at ih ⊢
    exact ih

theorem mapSPV_canon (f : Nat) (settings : SerializationSettings)
    (IH : ∀ ty2 fs2 out2, WTEntity ty2 (.ventity ty2 fs2) →
      serializeEntity f emptySerializer settings ty2 fs2 = .ok out2 →
      out2 = .vobj (canonFields (serializableProps ty2) fs2))
    (ps : List PropDesc) :
    ∀ (fs : List (String × Value)), WTFields ps fs →
      ∀ (entity : Value) (fsAll : List (String × Value)) (prs : List PSResult),
      List.Forall₂ (fun p kv => fieldVal fsAll p.name = kv.2) ps fs →
      mapSPV (entSerialize f emptySerializer settings) emptySerializer settings
        entity fsAll ps = .ok prs →
      prs = (canonFields ps fs).map (fun kv => PSResult.pair kv.1 kv.2) := by
  induction ps with
  | nil =>
    intro fs h entity fsAll prs _ hm
    cases h
    simp only [mapSPV, Except.ok.injEq] at hm
    subst hm
    rfl
  | cons p ps' ih =>
    intro fs h entity fsAll prs hlook hm
    cases h with
    | cons _ _ v fs' hv hfs =>
      cases hlook with
      | cons hhead htail =>
        simp only [mapSPV, spv_empty, hhead] at hm
        rcases hd : defaultConverterSerialize (entSerialize f emptySerializer settings) p v
          with err | r
        · rw [hd] at hm
          exact absurd hm (by simp [Bind.bind, Except.bind])
        · rw [hd] at hm
          rcases hrest : mapSPV (entSerialize f emptySerializer settings) emptySerializer
              settings entity fsAll ps' with err | rest
          · rw [hrest] at hm
            exact absurd hm (by simp [Bind.bind, Except.bind])
          · rw [hrest] at hm
            simp only [Bind.bind, Except.bind, Except.ok.injEq] at hm
            subst hm
            rw [canonFields_cons, List.map_cons]
            rw [default_canon f settings IH p v r hv hd,
              ih fs' hfs entity fsAll rest htail hrest]

theorem serialize_canon : (f : Nat) → ∀ (ty : Ty) (fields : List (String × Value))
    (settings : SerializationSettings) (out : Value),
    WTEntity ty (.ventity ty fields) →
    serializeEntity f emptySerializer settings ty fields = .ok out →
    out = .vobj (canonFields (serializableProps ty) fields)
  | 0 => by
    intro ty fields settings out hwt h
    exact absurd h (by simp [serializeEntity])
  | f + 1 => by
    intro ty fields settings out hwt h
    have IH : ∀ ty2 fs2 out2, WTEntity ty2 (.ventity ty2 fs2) →
        serializeEntity f emptySerializer settings ty2 fs2 = .ok out2 →
        out2 = .vobj (canonFields (serializableProps ty2) fs2) :=
      fun ty2 fs2 out2 => serialize_canon f ty2 fs2 settings out2
    cases hwt with
    | mk ty fields hnodup hfs =>
      rw [serializeEntity_succ] at h
      unfold serializedPairs at h
      simp only [getPropertyInjectors_empty, flatMapL] at h
      rcases hm : mapSPV (entSerialize f emptySerializer settings) emptySerializer settings
          (.ventity ty fields) fields (serializableProps ty) with err | prs
      · rw [hm] at h
        exact absurd h (by simp [Bind.bind, Except.bind])
      · rw [hm] at h
        simp only [Bind.bind, Except.bind, List.nil_append] at h
        have hlook : List.Forall₂
            (fun p kv => fieldVal fields p.name = kv.2) (serializableProps ty) fields := by
          have := wtfields_lookup_raw (serializableProps ty) fields hfs [] (by simp) hnodup
          simpa using this
        have hprs := mapSPV_canon f settings IH (serializableProps ty) fields hfs
          (.ventity ty fields) fields prs hlook hm
        subst hprs
        have hb := buildObject_eq_ok _ _ h
        rw [hb.1, kvOf_map_pair]

theorem gneed_pos (v : Value) : 1 ≤ gneed v := by
  cases v <;> simp [gneed]

theorem gneed_mem_list (es : List Value) (e : Value) (h : e ∈ es) :
    gneed e ≤ gneedList es := by
  induction es with
  | nil => exact absurd h (by simp)
  | cons x rest ih =>
    rcases List.mem_cons.mp h with rfl | h2
    · simp [gneedList]
    · have := ih h2
      simp only [gneedList]
      omega

theorem gneed_mem_fields (fs : List (String × Value)) (k : String) (v : Value)
    (h : (k, v) ∈ fs) : gneed v ≤ gneedFields fs := by
  induction fs with
  | nil => exact absurd h (by simp)
  | cons kv rest ih =>
    obtain ⟨k1, v1⟩ := kv
    rcases List.mem_cons.mp h with heq | h2
    · injection heq with h1 h2
      subst h2
      simp [gneedFields]
    · have := ih h2
      simp only [gneedFields]
      omega

theorem shapeDeserialize_scalar (dcb : Value → Value → PropDesc → Except String Value)
    (fenv : FormatEnv) (inst : Value) (d : Value) (p : PropDesc)
    (ctx : InitializationContext) (b : Bool)
    (hty : p.propertyType.isEntity = false) :
    shapeDeserialize dcb fenv inst d p ctx b =
      if p.isList && d.isArray then
        match d with
        | .vlist es => (es.mapM (fun i => dcb inst i p)).map .vlist
        | _ => .error "unreachable: isArray"
      else
        match p.format, d with
        | some fid, .vstr s =>
          if s ≠ "" && p.propertyType.isStringTy = false then .ok (fenv fid s)
          else .ok d
        | _, _ => .ok d := by
  unfold shapeDeserialize
  rcases hpt : p.propertyType with _ | _ | _ | nm | child
  · rfl
  · rfl
  · rfl
  · rfl
  · rw [hpt] at hty
    simp [PropType.isEntity] at hty

theorem deserialize_empty_succ (g : Nat) (inst : Value) (d : Value) (p : PropDesc)
    (ctx : InitializationContext) (fenv : FormatEnv) (b : Bool) :
    deserialize (g + 1) emptySerializer inst (.val d) p ctx fenv b =
      shapeDeserialize (fun i w q => deserialize g emptySerializer i (.val w) q ctx fenv true)
        fenv inst d p ctx b :=
  rfl

theorem mapM_id_of_ok {α : Type} (f : α → Except String α) :
    ∀ l : List α, (∀ x ∈ l, f x = .ok x) → l.mapM f = .ok l := by
  intro l
  induction l with
  | nil => intro _; rfl
  | cons x rest ih =>
    intro h
    rw [List.mapM_cons, h x (by simp), ih (fun y hy => h y (List.mem_cons_of_mem _ hy))]
    rfl

theorem scalarOkList_mem (p : PropDesc) (es : List Value)
    (h : scalarOkList p es = true) : ∀ e ∈ es, scalarOk p e = true := by
  induction es with
  | nil => intro e he; exact absurd he (by simp)
  | cons x rest ih =>
    simp only [scalarOkList, Bool.and_eq_true] at h
    intro e he
    rcases List.mem_cons.mp he with rfl | h2
    · exact h.1
    · exact ih h.2 e h2

theorem deserialize_scalar (p : PropDesc) (hty : p.propertyType.isEntity = false) :
    (g : Nat) → ∀ (v : Value) (inst : Value) (ctx : InitializationContext)
      (fenv : FormatEnv), scalarOk p v = true → gneed v ≤ g →
      deserialize g emptySerializer inst (.val v) p ctx fenv true = .ok v
  | 0 => by
    intro v inst ctx fenv hsc hg
    have := gneed_pos v
    omega
  | g + 1 => by
    intro v inst ctx fenv hsc hg
    rw [deserialize_empty_succ, shapeDeserialize_scalar _ _ _ _ _ _ _ hty]
    by_cases hl : (p.isList && v.isArray) = true
    · rw [if_pos hl]
      have harr : v.isArray = true := (Bool.and_eq_true_iff.mp hl).2
      cases v with
      | vlist es =>
        have hsc2 : scalarOkList p es = true := by simpa [scalarOk] using hsc
        have hg2 : gneedList es ≤ g := by
          simp only [gneed] at hg
          omega
        have hmap : es.mapM
            (fun i => deserialize g emptySerializer inst (.val i) p ctx fenv true) =
            .ok es := by
          apply mapM_id_of_ok
          intro e he
          exact deserialize_scalar p hty g e inst ctx fenv
            (scalarOkList_mem p es hsc2 e he)
            (le_trans (gneed_mem_list es e he) hg2)
        show (es.mapM
            (fun i => deserialize g emptySerializer inst (.val i) p ctx fenv true)).map
            Value.vlist = Except.ok (Value.vlist es)
        rw [hmap]
        rfl
      | vnull => exact absurd harr (by simp [Value.isArray])
      | vundefined => exact absurd harr (by simp [Value.isArray])
      | vstr s => exact absurd harr (by simp [Value.isArray])
      | vnum n => exact absurd harr (by simp [Value.isArray])
      | vbool bb => exact absurd harr (by simp [Value.isArray])
      | vobj fs => exact absurd harr (by simp [Value.isArray])
      | ventity t fs => exact absurd harr (by simp [Value.isArray])
    · rw [if_neg hl]
      rcases hfmt : p.format with _ | fid
      · cases v <;> rfl
      · cases v with
        | vstr s =>
          have hfs : formatSafe p (.vstr s) = true := by simpa [scalarOk] using hsc
          simp only [formatSafe, hfmt] at hfs
          rcases Bool.or_eq_true_iff.mp hfs with hor | hstr
          · rcases Bool.or_eq_true_iff.mp hor with hnone | hemp
            · simp [Option.isNone] at hnone
            · have : s = "" := by simpa using hemp
              subst this
              simp
          · simp [hstr]
        | vnull => rfl
        | vundefined => rfl
        | vnum n => rfl
        | vbool bb => rfl
        | vlist es => rfl
        | vobj fs => rfl
        | ventity t fs => rfl

theorem shapeDeserialize_entity (dcb : Value → Value → PropDesc → Except String Value)
    (fenv : FormatEnv) (inst : Value) (d : Value) (p : PropDesc)
    (ctx : InitializationContext) (b : Bool) (child : Ty)
    (hty : p.propertyType = .entityTy child) :
    shapeDeserialize dcb fenv inst d p ctx b =
      (if b = false then .ok d
       else if p.isList && d.isArray then
         match d with
         | .vlist es =>
           (es.mapM (fun s =>
             if instanceOfTy s child then .ok s
             else resolveEntity (fun v q => dcb (.ventity child []) v q) child s ctx)).map
             .vlist
         | _ => .error "unreachable: isArray"
       else if instanceOfTy d child then .ok d
       else if isObjectJS d then
         resolveEntity (fun v q => dcb (.ventity child []) v q) child d ctx
       else .ok .vundefined) := by
  unfold shapeDeserialize
  rw [hty]

theorem constructFields_rt (g : Nat) (ctx : InitializationContext)
    (fenv : FormatEnv) (inst0 : Value)
    (IH : ∀ (p : PropDesc) (v : Value) (inst : Value), WTVal p v → gneed v ≤ g →
      deserialize g emptySerializer inst (.val (canonPV p v)) p ctx fenv true = .ok v)
    (ps : List PropDesc) :
    ∀ (fs fsAll : List (String × Value)),
      WTFields ps fs →
      List.Forall₂ (fun p kv => fieldVal fsAll p.name = canonPV p kv.2) ps fs →
      (∀ kv ∈ fs, gneed (Prod.snd kv) ≤ g) →
      constructFields
        (fun w q => deserialize g emptySerializer inst0 (.val w) q ctx fenv true)
        ps (.vobj fsAll) = .ok fs := by
  induction ps with
  | nil =>
    intro fs fsAll h _ _
    cases h
    rfl
  | cons p ps' ih =>
    intro fs fsAll h hlook hg
    cases h with
    | cons _ _ v fs' hv hfs =>
      cases hlook with
      | cons hhead htail =>
        simp only [constructFields]
        rw [show jsIndex (.vobj fsAll) p.name = .ok (fieldVal fsAll p.name) from rfl,
          hhead]
        have hIH := IH p v inst0 hv (hg (p.name, v) (by simp))
        have hrest := ih fs' fsAll hfs htail
          (fun kv hkv => hg kv (List.mem_cons_of_mem _ hkv))
        rw [show ((Except.ok (canonPV p v) : Except String Value) >>= fun dv =>
            deserialize g emptySerializer inst0 (.val dv) p ctx fenv true >>= fun v2 =>
            constructFields
              (fun w q => deserialize g emptySerializer inst0 (.val w) q ctx fenv true)
              ps' (.vobj fsAll) >>= fun rest =>
            Except.ok ((p.name, v2) :: rest)) =
          (deserialize g emptySerializer inst0 (.val (canonPV p v)) p ctx fenv true >>=
            fun v2 =>
            constructFields
              (fun w q => deserialize g emptySerializer inst0 (.val w) q ctx fenv true)
              ps' (.vobj fsAll) >>= fun rest =>
            Except.ok ((p.name, v2) :: rest)) from rfl]
        rw [hIH]
        rw [show ((Except.ok v : Except String Value) >>= fun v2 =>
            constructFields
              (fun w q => deserialize g emptySerializer inst0 (.val w) q ctx fenv true)
              ps' (.vobj fsAll) >>= fun rest =>
            Except.ok ((p.name, v2) :: rest)) =
          (constructFields
              (fun w q => deserialize g emptySerializer inst0 (.val w) q ctx fenv true)
              ps' (.vobj fsAll) >>= fun rest =>
            Except.ok ((p.name, v) :: rest)) from rfl]
        rw [hrest]
        rfl

theorem resolveEntity_canon (g : Nat) (ctx : InitializationContext)
    (fenv : FormatEnv) (hctx : ∀ n i, truthy (ctx.get n i) = false)
    (IH : ∀ (p : PropDesc) (v : Value) (inst : Value), WTVal p v → gneed v ≤ g →
      deserialize g emptySerializer inst (.val (canonPV p v)) p ctx fenv true = .ok v)
    (child : Ty) (fs2 : List (String × Value))
    (hwt : WTEntity child (.ventity child fs2)) (hg : gneedFields fs2 ≤ g) :
    resolveEntity
      (fun w q => deserialize g emptySerializer (.ventity child []) (.val w) q ctx fenv true)
      child (.vobj (canonFields (serializableProps child) fs2)) ctx =
      .ok (.ventity child fs2) := by
  cases hwt with
  | mk child fs2 hnodup hfs =>
    have hlook : List.Forall₂
        (fun p kv => fieldVal (canonFields (serializableProps child) fs2) p.name =
          canonPV p kv.2) (serializableProps child) fs2 := by
      have := wtfields_lookup_canon (serializableProps child) fs2 hfs [] (by simp) hnodup
      simpa using this
    have hcf := constructFields_rt g ctx fenv (.ventity child []) IH
      (serializableProps child) fs2 (canonFields (serializableProps child) fs2) hfs hlook
      (fun kv hkv => le_trans (gneed_mem_fields fs2 kv.1 kv.2 hkv) hg)
    unfold resolveEntity
    rcases hid : child.identifier with _ | idn
    · show (constructFields (fun w q => deserialize g emptySerializer
          (Value.ventity child []) (DData.val w) q ctx fenv true)
          (serializableProps child)
          (Value.vobj (canonFields (serializableProps child) fs2)) >>= fun fs =>
          Except.ok (Value.ventity child fs)) = Except.ok (Value.ventity child fs2)
      rw [hcf]
      rfl
    · show (if truthy (if truthy (fieldVal (canonFields (serializableProps child) fs2) idn)
            = true then
            ctx.get child.fullName (fieldVal (canonFields (serializableProps child) fs2) idn)
          else Value.vundefined) = true then
          Except.ok (if truthy (fieldVal (canonFields (serializableProps child) fs2) idn)
            = true then
            ctx.get child.fullName (fieldVal (canonFields (serializableProps child) fs2) idn)
          else Value.vundefined)
        else constructFields (fun w q => deserialize g emptySerializer
            (Value.ventity child []) (DData.val w) q ctx fenv true)
            (serializableProps child)
            (Value.vobj (canonFields (serializableProps child) fs2)) >>= fun fs =>
          Except.ok (Value.ventity child fs)) = Except.ok (Value.ventity child fs2)
      by_cases hidv : truthy (fieldVal (canonFields (serializableProps child) fs2) idn) = true
      · rw [if_pos hidv, hctx]
        simp only [Bool.false_eq_true, if_false]
        rw [hcf]
        rfl
      · rw [if_neg hidv]
        rw [show truthy Value.vundefined = false from rfl]
        simp only [Bool.false_eq_true, if_false]
        rw [hcf]
        rfl

theorem entityList_rt (g : Nat) (ctx : InitializationContext) (fenv : FormatEnv)
    (hctx : ∀ n i, truthy (ctx.get n i) = false)
    (IH : ∀ (p : PropDesc) (v : Value) (inst : Value), WTVal p v → gneed v ≤ g →
      deserialize g emptySerializer inst (.val (canonPV p v)) p ctx fenv true = .ok v)
    (child : Ty) :
    ∀ es : List Value, (∀ e ∈ es, WTEntity child e) → gneedList es ≤ g →
      (canonEnts es).mapM (fun s =>
        if instanceOfTy s child then .ok s
        else resolveEntity
          (fun w q => deserialize g emptySerializer (.ventity child []) (.val w) q ctx fenv true)
          child s ctx) = .ok es := by
  intro es
  induction es with
  | nil => intro _ _; rfl
  | cons e es' ih =>
    intro hall hg
    have hwte := hall e (by simp)
    cases hwte with
    | mk child fs2 hnodup hfs =>
      rw [canonEnts_cons_entity, List.mapM_cons]
      have hginner : gneedFields fs2 ≤ g := by
        simp only [gneedList, gneed] at hg
        omega
      have hres := resolveEntity_canon g ctx fenv hctx IH child fs2
        (WTEntity.mk child fs2 hnodup hfs) hginner
      rw [show (if instanceOfTy (.vobj (canonFields (serializableProps child) fs2)) child
          then (Except.ok (Value.vobj (canonFields (serializableProps child) fs2)) :
            Except String Value)
          else resolveEntity
            (fun w q => deserialize g emptySerializer (.ventity child []) (.val w) q ctx
              fenv true) child (.vobj (canonFields (serializableProps child) fs2)) ctx) =
          resolveEntity
            (fun w q => deserialize g emptySerializer (.ventity child []) (.val w) q ctx
              fenv true) child (.vobj (canonFields (serializableProps child) fs2)) ctx
        from rfl]
      rw [hres]
      have hrest := ih (fun x hx => hall x (List.mem_cons_of_mem _ hx))
        (by simp only [gneedList] at hg; omega)
      rw [show ((Except.ok (Value.ventity child fs2) : Except String Value) >>= fun x =>
          (canonEnts es').mapM (fun s =>
            if instanceOfTy s child then .ok s
            else resolveEntity
              (fun w q => deserialize g emptySerializer (.ventity child []) (.val w) q ctx
                fenv true) child s ctx) >>= fun xs =>
          pure (x :: xs)) =
          ((canonEnts es').mapM (fun s =>
            if instanceOfTy s child then .ok s
            else resolveEntity
              (fun w q => deserialize g emptySerializer (.ventity child []) (.val w) q ctx
                fenv true) child s ctx) >>= fun xs =>
          pure (Value.ventity child fs2 :: xs)) from rfl]
      rw [hrest]
      rfl

theorem deserialize_canon : (g : Nat) → ∀ (p : PropDesc) (v : Value) (inst : Value)
    (ctx : InitializationContext) (fenv : FormatEnv),
    (∀ n i, truthy (ctx.get n i) = false) →
    WTVal p v → gneed v ≤ g →
    deserialize g emptySerializer inst (.val (canonPV p v)) p ctx fenv true = .ok v
  | 0 => by
    intro p v inst ctx fenv hctx hwt hg
    have := gneed_pos v
    omega
  | g + 1 => by
    intro p v inst ctx fenv hctx hwt hg
    have IH : ∀ (q : PropDesc) (w : Value) (inst2 : Value), WTVal q w → gneed w ≤ g →
        deserialize g emptySerializer inst2 (.val (canonPV q w)) q ctx fenv true = .ok w :=
      fun q w inst2 => deserialize_canon g q w inst2 ctx fenv hctx
    cases hwt with
    | scalar p v hty hsc =>
      rw [canonPV_scalar p v hty]
      exact deserialize_scalar p hty (g + 1) v inst ctx fenv hsc hg
    | entitySingle p child v hty hlist hent =>
      cases hent with
      | mk child fs2 hnodup hfs =>
        rw [canonPV_entity_single p child fs2 (by rw [hty]; rfl) hlist]
        rw [deserialize_empty_succ,
          shapeDeserialize_entity _ _ _ _ _ _ _ child hty]
        rw [hlist]
        rw [show instanceOfTy (.vobj (canonFields (serializableProps child) fs2)) child =
          false from rfl]
        rw [show isObjectJS (.vobj (canonFields (serializableProps child) fs2)) = true
          from rfl]
        simp only [Bool.false_and, Bool.false_eq_true, if_false, if_true,
          Bool.true_eq_false]
        exact resolveEntity_canon g ctx fenv hctx IH child fs2
          (WTEntity.mk child fs2 hnodup hfs)
          (by simp only [gneed] at hg; omega)
    | entityList p child es hty hlist hes =>
      rw [canonPV_entity_list p es (by rw [hty]; rfl) hlist]
      rw [deserialize_empty_succ,
        shapeDeserialize_entity _ _ _ _ _ _ _ child hty]
      rw [hlist]
      rw [show (Value.vlist (canonEnts es)).isArray = true from rfl]
      simp only [Bool.true_and, if_true, Bool.true_eq_false, Bool.false_eq_true, if_false]
      rw [entityList_rt g ctx fenv hctx IH child es hes
        (by simp only [gneed] at hg; omega)]
      rfl

/-- C1 (amended): on a registration-free serializer, serialization followed
by per-property deserialization reproduces every serializable property value
of a canonical well-typed entity — entity-typed values being actual
instances of the exact declared type (lists thereof for entity-list
properties), fields listed in declared order with distinct names, scalar
data format-safe — provided the instance lookup of the initialization
context misses and the deserialization fuel covers the value's nesting
depth.  (The original claim, quantifying over null-valued entity-typed
properties as well, is refuted by `serializer_C1_counterexample`.) -/
theorem serializer_C1_amended (f : Nat) (settings : SerializationSettings)
    (ty : Ty) (fields out : List (String × Value)) (p : PropDesc) (g : Nat)
    (inst : Value) (ctx : InitializationContext) (fenv : FormatEnv)
    (hwt : WTEntity ty (.ventity ty fields))
    (hctx : ∀ n i, truthy (ctx.get n i) = false)
    (hser : serializeEntity f emptySerializer settings ty fields = .ok (.vobj out))
    (hp : p ∈ serializableProps ty)
    (hg : gneed (fieldVal fields p.name) ≤ g) :
    deserialize g emptySerializer inst (.val (fieldVal out p.name)) p ctx fenv true =
      .ok (fieldVal fields p.name) := by
  have hout := serialize_canon f ty fields settings (.vobj out) hwt hser
  injection hout with hout
  cases hwt with
  | mk ty fields hnodup hfs =>
    have h1 := wtfields_lookup_raw (serializableProps ty) fields hfs [] (by simp) hnodup
    have h2 := wtfields_lookup_canon (serializableProps ty) fields hfs [] (by simp) hnodup
    have h3 := wtfields_forall2_wtval (serializableProps ty) fields hfs
    simp only [List.nil_append] at h1 h2
    have hcomb := forall2_and h1 (forall2_and h2 h3)
    rcases forall2_mem_left hcomb p hp with ⟨kv, hkvmem, hraw, hcanon, hwtv⟩
    rw [hout, hcanon, hraw]
    exact deserialize_canon g p kv.2 inst ctx fenv hctx hwtv (hraw ▸ hg)

/-- C1 counterexample: a null-valued entity-typed property serializes to
`null` but deserializes to no value (`undefined`), so the round trip does
not reproduce the property value `null`: the claim as stated is false for
nested entity-valued properties holding `null`. -/
theorem serializer_C1_counterexample :
    serializeEntity 2 emptySerializer DefaultSerializationSettings tyCE
      [("name", .vnull), ("nums", .vnull), ("manager", .vnull)] =
      .ok (.vobj [("name", .vnull), ("nums", .vnull), ("manager", .vnull)]) ∧
    fieldVal [("name", Value.vnull), ("nums", Value.vnull), ("manager", Value.vnull)]
      "manager" = .vnull ∧
    deserialize 2 emptySerializer (.ventity tyCE []) (.val .vnull) pMgr ctx0
      fenv0 true = .ok .vundefined ∧
    Value.vundefined ≠ Value.vnull :=
  ⟨rfl, rfl, rfl, by simp⟩

theorem serializer_C1_witness :
    deserialize 5 emptySerializer (.ventity tyCE []) (.val (.vobj [("name", .vstr "Bob")]))
      pMgr ctx0 fenv0 true = .ok (.ventity tyChild [("name", .vstr "Bob")]) :=
  serializer_C1_amended 3 DefaultSerializationSettings tyCE eAnn
    [("name", .vstr "Ann"), ("nums", .vlist [.vnum 1, .vnum 2]),
     ("manager", .vobj [("name", .vstr "Bob")])] pMgr 5 (.ventity tyCE []) ctx0 fenv0
    (WTEntity.mk tyCE eAnn (by decide)
      (WTFields.cons pName [pNums, pMgr] (.vstr "Ann")
        [("nums", .vlist [.vnum 1, .vnum 2]),
         ("manager", .ventity tyChild [("name", .vstr "Bob")])]
        (WTVal.scalar pName (.vstr "Ann") rfl rfl)
        (WTFields.cons pNums [pMgr] (.vlist [.vnum 1, .vnum 2])
          [("manager", .ventity tyChild [("name", .vstr "Bob")])]
          (WTVal.scalar pNums (.vlist [.vnum 1, .vnum 2]) rfl rfl)
          (WTFields.cons pMgr [] (.ventity tyChild [("name", .vstr "Bob")]) []
            (WTVal.entitySingle pMgr tyChild (.ventity tyChild [("name", .vstr "Bob")])
              rfl rfl
              (WTEntity.mk tyChild [("name", .vstr "Bob")] (by decide)
                (WTFields.cons pChildName [] (.vstr "Bob") []
                  (WTVal.scalar pChildName (.vstr "Bob") rfl rfl)
                  WTFields.nil)))
            WTFields.nil))))
    (fun n i => rfl) rfl
    (List.mem_cons_of_mem _ (List.mem_cons_of_mem _ (List.mem_cons_self _ _)))
    (by decide)
